import Mathlib

/-!
Verification of the debtster_export export-job engine against its
natural-language specification.

The Go source is shallowly embedded: pure fragments become Lean functions,
the effectful export task becomes an explicit list of the Job Status records
it persists over its lifetime (one list element per pair of cache writes),
and external collaborators (the row repository, the object store, the
cancellable context) become explicit parameters describing their observable
behaviour.  The progress computation
`math.Round(float64(rowsDone)/float64(total)*100)` runs on IEEE-754
binary64 values, so it is embedded as an exact model of that pipeline:
conversion, division and multiplication each round to the nearest
53-bit-significand dyadic (ties to even), and `math.Round` rounds the
resulting exact dyadic half away from zero.  The model is written in pure
`Nat`/`Int` arithmetic so that concrete checkpoints evaluate inside the
kernel; a `ℚ`-valued semantics (`val`, `floatPct`) is used in proofs.
-/

namespace DebtsterExport

/-- Calendar timestamp, standing in for Go's `time.Time` (wall-clock part
only, which is all the program observes through `Format` and `Sub`). -/
structure DateTime where
  year : Nat
  month : Nat
  day : Nat
  hour : Nat
  minute : Nat
  second : Nat
deriving DecidableEq, Repr

/-- Left-pad a numeral to two digits, as Go's `time.Format` layout `01`/`02`
style components do. -/
def pad2 (n : Nat) : String :=
  if n < 10 then "0" ++ toString n else toString n

/-- Left-pad a numeral to four digits, as the `2006` year component does. -/
def pad4 (n : Nat) : String :=
  if n < 10 then "000" ++ toString n
  else if n < 100 then "00" ++ toString n
  else if n < 1000 then "0" ++ toString n
  else toString n

/-- Rendering `t.Format("2006-01-02 15:04:05")`: the fixed-layout timestamp rendering
used for the legacy cache representation. -/
def formatDateTime (t : DateTime) : String :=
  pad4 t.year ++ "-" ++ pad2 t.month ++ "-" ++ pad2 t.day ++ " " ++
    pad2 t.hour ++ ":" ++ pad2 t.minute ++ ":" ++ pad2 t.second

/-- Days since the civil epoch 1970-01-01 (Hinnant's algorithm), modelling
the arithmetic `time.Time` performs internally for `Sub`.  Only used for
non-negative spans in this development. -/
def daysFromCivil (y m d : Int) : Int :=
  let y' := if m ≤ 2 then y - 1 else y
  let era := (if 0 ≤ y' then y' else y' - 399).ediv 400
  let yoe := y' - era * 400
  let mp := (m + 9).emod 12
  let doy := (153 * mp + 2).ediv 5 + d - 1
  let doe := yoe * 365 + yoe.ediv 4 - yoe.ediv 100 + doy
  era * 146097 + doe - 719468

/-- Absolute second count of a `DateTime`, used to model `now.Sub(t)`. -/
def DateTime.toSeconds (t : DateTime) : Int :=
  daysFromCivil t.year t.month t.day * 86400 +
    t.hour * 3600 + t.minute * 60 + t.second

/-- The job-status record (`ExportStatus` in the source): the shared mutable
record describing one export job.  `filters` is the opaque display-only
filter description; it is embedded as an association list because the
engine never re-parses it. -/
structure ExportStatus where
  key : String
  typ : String
  userID : Int
  filters : List (String × Option String)
  progress : Nat
  fileURL : Option String
  error : Option String
  created : DateTime
deriving DecidableEq, Repr

/-- The legacy cache row (`ExportCacheItem` in the source). -/
structure ExportCacheItem where
  key : String
  typ : String
  userID : Int
  progress : Nat
  fileURL : Option String
  error : Option String
  created : String
deriving DecidableEq, Repr

/-- Status freshly constructed by `StartXExport`/`runXExport`: progress 0,
no artifact URL, no error. -/
def mkStatus (key typ : String) (userID : Int)
    (filters : List (String × Option String)) (created : DateTime) :
    ExportStatus :=
  { key := key, typ := typ, userID := userID, filters := filters,
    progress := 0, fileURL := none, error := none, created := created }

/-! ### Progress-checkpoint arithmetic (runDebtsExport / runPaymentsExport) -/

/-! Exact model of the IEEE-754 binary64 computation
`math.Round(float64(k) / float64(n) * 100.0)`, in pure `Nat`/`Int`
arithmetic so the kernel can evaluate it.  A double is a pair `(m, e)`
standing for `m * 2^e`; rounding to nearest-even at 53 significand bits is
performed exactly on rationals represented as numerator/denominator
pairs.  The values reached by the program stay far inside the normal
range, so overflow and subnormals need no modelling. -/

/-- Bit length of a natural number, by structural recursion on fuel. -/
def bitLenAux : Nat → Nat → Nat
  | 0, _ => 0
  | fuel + 1, n => if n = 0 then 0 else bitLenAux fuel (n / 2) + 1

/-- Bit length of `n`: the least `L` with `n < 2^L`. -/
def bitLen (n : Nat) : Nat := bitLenAux n n

/-- Whether `a / b ≥ 2^e`, by cross multiplication. -/
def gePow2 (a b : ℕ) (e : ℤ) : Bool :=
  if 0 ≤ e then decide (b * 2 ^ e.toNat ≤ a) else decide (b ≤ a * 2 ^ (-e).toNat)

/-- Floor of the base-2 logarithm of `a / b` (for `a, b ≥ 1`). -/
def elog (a b : ℕ) : ℤ :=
  if gePow2 a b ((bitLen a : ℤ) - bitLen b) then (bitLen a : ℤ) - bitLen b
  else (bitLen a : ℤ) - bitLen b - 1

/-- Round `A / B` to the nearest integer, ties to even. -/
def rneNat (A B : ℕ) : ℕ :=
  let q := A / B
  let r := A % B
  if 2 * r < B then q
  else if B < 2 * r then q + 1
  else if q % 2 = 0 then q else q + 1

/-- Round the positive rational `a / b` to the nearest binary64 value
`(mantissa, exponent)`, mantissa taken in `[2^52, 2^53]`. -/
def flPair (a b : ℕ) : ℕ × ℤ :=
  if a = 0 then (0, 0)
  else if 0 ≤ 52 - elog a b then
    (rneNat (a * 2 ^ (52 - elog a b).toNat) b, elog a b - 52)
  else (rneNat a (b * 2 ^ (elog a b - 52).toNat), elog a b - 52)

/-- The dyadic `m * 2^e` as a numerator/denominator pair. -/
def pairToFrac (m : ℕ) (e : ℤ) : ℕ × ℕ :=
  if 0 ≤ e then (m * 2 ^ e.toNat, 1) else (m, 2 ^ (-e).toNat)

/-- Fraction representing the exact quotient of two doubles. -/
def divFrac (p q : ℕ × ℤ) : ℕ × ℕ :=
  if 0 ≤ p.2 - q.2 then (p.1 * 2 ^ (p.2 - q.2).toNat, q.1)
  else (p.1, q.1 * 2 ^ (q.2 - p.2).toNat)

/-- IEEE double division: round the exact quotient. -/
def flDiv (p q : ℕ × ℤ) : ℕ × ℤ :=
  flPair (divFrac p q).1 (divFrac p q).2

/-- IEEE double multiplication by the exact constant 100. -/
def flMul100 (p : ℕ × ℤ) : ℕ × ℤ :=
  flPair (pairToFrac (100 * p.1) p.2).1 (pairToFrac (100 * p.1) p.2).2

/-- `math.Round` (round half away from zero) of the non-negative double
`m * 2^e`, exactly. -/
def mathRoundPair (p : ℕ × ℤ) : ℕ :=
  if 0 ≤ p.2 then p.1 * 2 ^ p.2.toNat
  else (2 * p.1 + 2 ^ (-p.2).toNat) / (2 * 2 ^ (-p.2).toNat)

/-- The progress computation of the chunk loop:
`math.Round(float64(k) / float64(n) * 100.0)` — converting both counters
to binary64 (exact below `2^53`), dividing and multiplying in binary64
with round-to-nearest-even, and rounding half away from zero.  (`n = 0`
never reaches this computation: the chunk loop is skipped entirely for an
empty row set.) -/
def roundPct (k n : ℕ) : ℕ :=
  if n = 0 then 0
  else mathRoundPair (flMul100 (flDiv (flPair k 1) (flPair n 1)))

/-- Exact rational value of the double `(m, e)`. -/
def val (p : ℕ × ℤ) : ℚ := p.1 * 2 ^ p.2

/-- Round to nearest integer, ties to even, on rationals (proof-layer
counterpart of `rneNat`). -/
def rne (x : ℚ) : ℤ :=
  if x - ⌊x⌋ < 1 / 2 then ⌊x⌋
  else if 1 / 2 < x - ⌊x⌋ then ⌊x⌋ + 1
  else if Even ⌊x⌋ then ⌊x⌋ else ⌊x⌋ + 1

section FloatLemmas

theorem bitLenAux_zero (fuel : ℕ) : bitLenAux fuel 0 = 0 := by
  cases fuel <;> simp [bitLenAux]

theorem bitLenAux_spec :
    ∀ fuel n, 1 ≤ n → n ≤ fuel →
      2 ^ (bitLenAux fuel n - 1) ≤ n ∧ n < 2 ^ bitLenAux fuel n := by
  intro fuel
  induction fuel with
  | zero => intro n h1 h2; omega
  | succ fuel ih =>
      intro n h1 h2
      rw [bitLenAux, if_neg (by omega)]
      by_cases hn : n = 1
      · subst hn
        simp [bitLenAux_zero]
      · have h2' : 2 ≤ n := by omega
        have hhalf1 : 1 ≤ n / 2 := by omega
        have hhalf2 : n / 2 ≤ fuel := by omega
        obtain ⟨ihl, ihu⟩ := ih (n / 2) hhalf1 hhalf2
        set L := bitLenAux fuel (n / 2) with hL
        have hL1 : 1 ≤ L := by
          by_contra hc
          interval_cases L <;> omega
        constructor
        · have : 2 ^ L = 2 * 2 ^ (L - 1) := by
            rw [← pow_succ']
            congr 1
            omega
          simp only [Nat.add_sub_cancel]
          omega
        · have : 2 ^ (L + 1) = 2 * 2 ^ L := by rw [pow_succ']
          omega

theorem bitLen_spec (n : ℕ) (h : 1 ≤ n) :
    2 ^ (bitLen n - 1) ≤ n ∧ n < 2 ^ bitLen n :=
  bitLenAux_spec n n h le_rfl

theorem bitLen_pos (n : ℕ) (h : 1 ≤ n) : 1 ≤ bitLen n := by
  by_contra hc
  have := (bitLen_spec n h).2
  interval_cases h' : bitLen n <;> omega

theorem two_zpow_pos (e : ℤ) : (0 : ℚ) < 2 ^ e :=
  zpow_pos (by norm_num) e

/-- Bit-length bounds, phrased over ℚ with integer exponents. -/
theorem bitLen_bounds_q (n : ℕ) (h : 1 ≤ n) :
    (2 : ℚ) ^ ((bitLen n : ℤ) - 1) ≤ n ∧ (n : ℚ) < 2 ^ (bitLen n : ℤ) := by
  obtain ⟨hl, hu⟩ := bitLen_spec n h
  have h1 := bitLen_pos n h
  constructor
  · calc (2 : ℚ) ^ ((bitLen n : ℤ) - 1) = 2 ^ ((bitLen n - 1 : ℕ) : ℤ) := by
          congr 1
          omega
    _ = ((2 ^ (bitLen n - 1) : ℕ) : ℚ) := by push_cast; rw [zpow_natCast]
    _ ≤ n := by exact_mod_cast hl
  · calc (n : ℚ) < ((2 ^ bitLen n : ℕ) : ℚ) := by exact_mod_cast hu
    _ = 2 ^ (bitLen n : ℤ) := by push_cast; rw [zpow_natCast]

theorem gePow2_iff (a b : ℕ) (hb : 1 ≤ b) (e : ℤ) :
    gePow2 a b e = true ↔ (2 : ℚ) ^ e ≤ (a : ℚ) / b := by
  have hb' : (0 : ℚ) < b := by exact_mod_cast hb
  unfold gePow2
  split
  · rename_i he
    have hE : (2 : ℚ) ^ e = ((2 ^ e.toNat : ℕ) : ℚ) := by
      obtain ⟨t, rfl⟩ : ∃ t : ℕ, e = (t : ℤ) :=
        ⟨e.toNat, (Int.toNat_of_nonneg he).symm⟩
      rw [zpow_natCast, Int.toNat_natCast]
      push_cast
      ring
    rw [decide_eq_true_iff, le_div_iff₀ hb', hE]
    rw [show ((2 ^ e.toNat : ℕ) : ℚ) * (b : ℚ) = ((2 ^ e.toNat * b : ℕ) : ℚ)
      by push_cast; ring]
    rw [Nat.cast_le, Nat.mul_comm]
  · rename_i he
    have hE : (2 : ℚ) ^ e = (((2 ^ (-e).toNat : ℕ)) : ℚ)⁻¹ := by
      obtain ⟨t, rfl⟩ : ∃ t : ℕ, e = -(t : ℤ) := ⟨(-e).toNat, by omega⟩
      rw [zpow_neg, zpow_natCast, neg_neg, Int.toNat_natCast]
      push_cast
      ring
    have hp : (0 : ℚ) < ((2 ^ (-e).toNat : ℕ) : ℚ) := by positivity
    rw [decide_eq_true_iff, hE, inv_eq_one_div, div_le_div_iff hp hb', one_mul]
    rw [show (a : ℚ) * ((2 ^ (-e).toNat : ℕ) : ℚ) = ((a * 2 ^ (-e).toNat : ℕ) : ℚ)
      by push_cast; ring]
    rw [Nat.cast_le]

theorem elog_spec (a b : ℕ) (ha : 1 ≤ a) (hb : 1 ≤ b) :
    (2 : ℚ) ^ elog a b ≤ (a : ℚ) / b ∧ (a : ℚ) / b < 2 ^ (elog a b + 1) := by
  have hb' : (0 : ℚ) < b := by exact_mod_cast hb
  obtain ⟨hal, hau⟩ := bitLen_bounds_q a ha
  obtain ⟨hbl, hbu⟩ := bitLen_bounds_q b hb
  unfold elog
  split
  · rename_i hge
    refine ⟨(gePow2_iff a b hb _).mp hge, ?_⟩
    rw [div_lt_iff hb']
    calc (a : ℚ) < 2 ^ (bitLen a : ℤ) := hau
    _ = 2 ^ ((bitLen a : ℤ) - bitLen b + 1) * 2 ^ ((bitLen b : ℤ) - 1) := by
          rw [← zpow_add₀ (by norm_num : (2 : ℚ) ≠ 0)]
          congr 1
          omega
    _ ≤ 2 ^ ((bitLen a : ℤ) - bitLen b + 1) * b := by
          have := two_zpow_pos ((bitLen a : ℤ) - bitLen b + 1)
          nlinarith
  · rename_i hge
    have hlt : (a : ℚ) / b < 2 ^ ((bitLen a : ℤ) - bitLen b) := by
      by_contra hc
      exact hge ((gePow2_iff a b hb _).mpr (by linarith))
    constructor
    · rw [le_div_iff₀ hb']
      calc (2 : ℚ) ^ ((bitLen a : ℤ) - bitLen b - 1) * b ≤
          2 ^ ((bitLen a : ℤ) - bitLen b - 1) * 2 ^ (bitLen b : ℤ) := by
            have := two_zpow_pos ((bitLen a : ℤ) - bitLen b - 1)
            nlinarith
      _ = 2 ^ ((bitLen a : ℤ) - 1) := by
            rw [← zpow_add₀ (by norm_num : (2 : ℚ) ≠ 0)]
            congr 1
            omega
      _ ≤ a := hal
    · rw [show (bitLen a : ℤ) - bitLen b - 1 + 1 = (bitLen a : ℤ) - bitLen b
        by omega]
      exact hlt

theorem rne_le (x : ℚ) : (rne x : ℚ) ≤ x + 1 / 2 := by
  have h1 := Int.floor_le x
  have h2 := Int.lt_floor_add_one x
  unfold rne
  split_ifs <;> push_cast <;> linarith

theorem le_rne (x : ℚ) : x - 1 / 2 ≤ (rne x : ℚ) := by
  have h1 := Int.floor_le x
  have h2 := Int.lt_floor_add_one x
  unfold rne
  split_ifs with hc1 hc2 <;> push_cast <;> linarith

theorem rne_mono {x y : ℚ} (h : x ≤ y) : rne x ≤ rne y := by
  by_contra hc
  push_neg at hc
  have h1 : ((rne y : ℤ) : ℚ) + 1 ≤ ((rne x : ℤ) : ℚ) := by
    exact_mod_cast Int.add_one_le_iff.mpr hc
  have h2 := rne_le x
  have h3 := le_rne y
  have hxy : x = y := le_antisymm h (by linarith)
  subst hxy
  omega

theorem rne_nonneg {x : ℚ} (h : 0 ≤ x) : 0 ≤ rne x := by
  by_contra hc
  push_neg at hc
  have h1 : rne x ≤ -1 := by omega
  have h2 : ((rne x : ℤ) : ℚ) ≤ -1 := by exact_mod_cast h1
  have := le_rne x
  linarith

theorem rneNat_eq (A B : ℕ) (hB : 0 < B) :
    (rneNat A B : ℤ) = rne ((A : ℚ) / B) := by
  have hB' : (0 : ℚ) < B := by exact_mod_cast hB
  have hfloor : ⌊(A : ℚ) / B⌋ = ((A / B : ℕ) : ℤ) := by
    rw [Rat.floor_natCast_div_natCast, Int.natCast_div]
  have hdm := Nat.div_add_mod A B
  have hA : (A : ℚ) = (B : ℚ) * ((A / B : ℕ) : ℚ) + ((A % B : ℕ) : ℚ) := by
    exact_mod_cast hdm.symm
  have hfrac : (A : ℚ) / B - ((⌊(A : ℚ) / B⌋ : ℤ) : ℚ) =
      ((A % B : ℕ) : ℚ) / B := by
    rw [hfloor, Int.cast_natCast]
    rw [eq_div_iff (ne_of_gt hB'), sub_mul, div_mul_cancel₀ _ (ne_of_gt hB')]
    linarith [hA]
  rcases lt_trichotomy (2 * (A % B)) B with hc | hc | hc
  · have hx : (A : ℚ) / B - ((⌊(A : ℚ) / B⌋ : ℤ) : ℚ) < 1 / 2 := by
      rw [hfrac, div_lt_iff hB']
      calc ((A % B : ℕ) : ℚ) = (((2 * (A % B) : ℕ) : ℚ)) / 2 := by push_cast; ring
      _ < (B : ℚ) / 2 := by
            have : ((2 * (A % B) : ℕ) : ℚ) < B := by exact_mod_cast hc
            linarith
      _ = 1 / 2 * B := by ring
    rw [rne, if_pos hx, rneNat, if_pos hc, hfloor]
  · have hx : (A : ℚ) / B - ((⌊(A : ℚ) / B⌋ : ℤ) : ℚ) = 1 / 2 := by
      rw [hfrac]
      rw [div_eq_iff (by positivity : (B : ℚ) ≠ 0)]
      have : ((2 * (A % B) : ℕ) : ℚ) = B := by exact_mod_cast hc
      push_cast at this ⊢
      linarith
    have hnc : ¬ (2 * (A % B) < B) := by omega
    have hnc2 : ¬ (B < 2 * (A % B)) := by omega
    have heven : Even ⌊(A : ℚ) / B⌋ ↔ A / B % 2 = 0 := by
      rw [hfloor, Int.even_coe_nat, Nat.even_iff]
    rw [rne, if_neg (by rw [hx]; norm_num), if_neg (by rw [hx]; norm_num),
      rneNat, if_neg hnc, if_neg hnc2]
    by_cases hq : A / B % 2 = 0
    · rw [if_pos (heven.mpr hq), if_pos hq, hfloor]
    · rw [if_neg (fun h => hq (heven.mp h)), if_neg hq, hfloor]
      push_cast
      ring
  · have hx : 1 / 2 < (A : ℚ) / B - ((⌊(A : ℚ) / B⌋ : ℤ) : ℚ) := by
      rw [hfrac, lt_div_iff hB']
      calc (1 : ℚ) / 2 * B = (B : ℚ) / 2 := by ring
      _ < (((2 * (A % B) : ℕ) : ℚ)) / 2 := by
            have : (B : ℚ) < ((2 * (A % B) : ℕ) : ℚ) := by exact_mod_cast hc
            linarith
      _ = ((A % B : ℕ) : ℚ) := by push_cast; ring
    rw [rne, if_neg (by linarith), if_pos hx, rneNat, if_neg (by omega),
      if_pos hc, hfloor]
    push_cast
    ring

end FloatLemmas



theorem natPow_cast_toNat {s : ℤ} (hs : 0 ≤ s) :
    ((2 ^ s.toNat : ℕ) : ℚ) = 2 ^ s := by
  obtain ⟨t, rfl⟩ : ∃ t : ℕ, s = (t : ℤ) := ⟨s.toNat, (Int.toNat_of_nonneg hs).symm⟩
  rw [Int.toNat_natCast, zpow_natCast]
  push_cast
  ring

theorem val_nonneg (p : ℕ × ℤ) : 0 ≤ val p := by
  unfold val
  positivity

theorem flPair_eq (a b : ℕ) (ha : 1 ≤ a) (hb : 1 ≤ b) :
    val (flPair a b) =
      (rne ((a : ℚ) / b * 2 ^ (52 - elog a b)) : ℚ) * 2 ^ (elog a b - 52) := by
  have hb' : (0 : ℚ) < b := by exact_mod_cast hb
  unfold flPair
  rw [if_neg (by omega : ¬ a = 0)]
  split
  · rename_i hs
    have h1 : ((a * 2 ^ (52 - elog a b).toNat : ℕ) : ℚ) / b =
        (a : ℚ) / b * 2 ^ (52 - elog a b) := by
      rw [Nat.cast_mul, natPow_cast_toNat hs]
      ring
    have h2 := rneNat_eq (a * 2 ^ (52 - elog a b).toNat) b (by omega)
    rw [h1] at h2
    show ((rneNat (a * 2 ^ (52 - elog a b).toNat) b : ℕ) : ℚ) *
      2 ^ (elog a b - 52) = _
    rw [show ((rneNat (a * 2 ^ (52 - elog a b).toNat) b : ℕ) : ℚ) =
      ((rne ((a : ℚ) / b * 2 ^ (52 - elog a b)) : ℤ) : ℚ) by exact_mod_cast h2]
  · rename_i hs
    have hd : (0 : ℚ) < ((2 ^ (elog a b - 52).toNat : ℕ) : ℚ) := by positivity
    have h1 : (a : ℚ) / ((b * 2 ^ (elog a b - 52).toNat : ℕ) : ℚ) =
        (a : ℚ) / b * 2 ^ (52 - elog a b) := by
      have hbne : (b : ℚ) ≠ 0 := by positivity
      have hpne : (2 : ℚ) ^ (elog a b - 52) ≠ 0 := ne_of_gt (two_zpow_pos _)
      rw [Nat.cast_mul, natPow_cast_toNat (by omega : (0:ℤ) ≤ elog a b - 52)]
      rw [show (52 : ℤ) - elog a b = -(elog a b - 52) by ring, zpow_neg]
      field_simp
    have h2 := rneNat_eq a (b * 2 ^ (elog a b - 52).toNat)
      (by positivity)
    rw [h1] at h2
    show ((rneNat a (b * 2 ^ (elog a b - 52).toNat) : ℕ) : ℚ) *
      2 ^ (elog a b - 52) = _
    rw [show ((rneNat a (b * 2 ^ (elog a b - 52).toNat) : ℕ) : ℚ) =
      ((rne ((a : ℚ) / b * 2 ^ (52 - elog a b)) : ℤ) : ℚ) by exact_mod_cast h2]

theorem flPair_lower (a b : ℕ) (ha : 1 ≤ a) (hb : 1 ≤ b) :
    (2 : ℚ) ^ elog a b ≤ val (flPair a b) := by
  have hq := (elog_spec a b ha hb).1
  rw [flPair_eq a b ha hb]
  have hsplit : (2 : ℚ) ^ (52 : ℤ) = 2 ^ elog a b * 2 ^ (52 - elog a b) := by
    rw [← zpow_add₀ (by norm_num : (2 : ℚ) ≠ 0)]
    congr 1
    omega
  have hX : (2 : ℚ) ^ (52 : ℤ) ≤ (a : ℚ) / b * 2 ^ (52 - elog a b) := by
    rw [hsplit]
    have := two_zpow_pos (52 - elog a b)
    nlinarith
  have h1 : (2 : ℚ) ^ (52 : ℤ) - 1 / 2 ≤
      ((rne ((a : ℚ) / b * 2 ^ (52 - elog a b)) : ℤ) : ℚ) := by
    have := le_rne ((a : ℚ) / b * 2 ^ (52 - elog a b))
    linarith
  have h2 : ((2 ^ 52 : ℤ) : ℚ) ≤
      ((rne ((a : ℚ) / b * 2 ^ (52 - elog a b)) : ℤ) : ℚ) := by
    have hz : (2 : ℚ) ^ (52 : ℤ) = ((2 ^ 52 : ℤ) : ℚ) := by norm_num
    rw [hz] at h1
    have : (2 ^ 52 : ℤ) - 1 <
        rne ((a : ℚ) / b * 2 ^ (52 - elog a b)) := by
      by_contra hcon
      push_neg at hcon
      have : ((rne ((a : ℚ) / b * 2 ^ (52 - elog a b)) : ℤ) : ℚ) ≤
          ((2 ^ 52 - 1 : ℤ) : ℚ) := by exact_mod_cast hcon
      push_cast at this h1
      linarith
    have : (2 ^ 52 : ℤ) ≤ rne ((a : ℚ) / b * 2 ^ (52 - elog a b)) := by omega
    exact_mod_cast this
  calc (2 : ℚ) ^ elog a b = 2 ^ (52 : ℤ) * 2 ^ (elog a b - 52) := by
        rw [← zpow_add₀ (by norm_num : (2 : ℚ) ≠ 0)]
        congr 1
        omega
  _ ≤ ((rne ((a : ℚ) / b * 2 ^ (52 - elog a b)) : ℤ) : ℚ) *
        2 ^ (elog a b - 52) := by
        have hp := two_zpow_pos (elog a b - 52)
        have hz : (2 : ℚ) ^ (52 : ℤ) = ((2 ^ 52 : ℤ) : ℚ) := by norm_num
        rw [hz]
        nlinarith

theorem flPair_upper (a b : ℕ) (ha : 1 ≤ a) (hb : 1 ≤ b) :
    val (flPair a b) ≤ (2 : ℚ) ^ (elog a b + 1) := by
  have hq := (elog_spec a b ha hb).2
  rw [flPair_eq a b ha hb]
  have hsplit : (2 : ℚ) ^ (53 : ℤ) = 2 ^ (elog a b + 1) * 2 ^ (52 - elog a b) := by
    rw [← zpow_add₀ (by norm_num : (2 : ℚ) ≠ 0)]
    congr 1
    omega
  have hX : (a : ℚ) / b * 2 ^ (52 - elog a b) ≤ (2 : ℚ) ^ (53 : ℤ) := by
    rw [hsplit]
    have := two_zpow_pos (52 - elog a b)
    nlinarith
  have h1 : ((rne ((a : ℚ) / b * 2 ^ (52 - elog a b)) : ℤ) : ℚ) ≤
      (2 : ℚ) ^ (53 : ℤ) + 1 / 2 := by
    have := rne_le ((a : ℚ) / b * 2 ^ (52 - elog a b))
    linarith
  have h2 : ((rne ((a : ℚ) / b * 2 ^ (52 - elog a b)) : ℤ) : ℚ) ≤
      ((2 ^ 53 : ℤ) : ℚ) := by
    have hz : (2 : ℚ) ^ (53 : ℤ) = ((2 ^ 53 : ℤ) : ℚ) := by norm_num
    rw [hz] at h1
    have : rne ((a : ℚ) / b * 2 ^ (52 - elog a b)) < 2 ^ 53 + 1 := by
      by_contra hcon
      push_neg at hcon
      have : ((2 ^ 53 + 1 : ℤ) : ℚ) ≤
          ((rne ((a : ℚ) / b * 2 ^ (52 - elog a b)) : ℤ) : ℚ) := by
        exact_mod_cast hcon
      push_cast at this h1
      linarith
    have : rne ((a : ℚ) / b * 2 ^ (52 - elog a b)) ≤ 2 ^ 53 := by omega
    exact_mod_cast this
  calc ((rne ((a : ℚ) / b * 2 ^ (52 - elog a b)) : ℤ) : ℚ) *
      2 ^ (elog a b - 52) ≤ ((2 ^ 53 : ℤ) : ℚ) * 2 ^ (elog a b - 52) := by
        have := two_zpow_pos (elog a b - 52)
        nlinarith
  _ = 2 ^ (elog a b + 1) := by
        have hz : ((2 ^ 53 : ℤ) : ℚ) = (2 : ℚ) ^ (53 : ℤ) := by norm_num
        rw [hz, ← zpow_add₀ (by norm_num : (2 : ℚ) ≠ 0)]
        congr 1
        omega

theorem elog_mono (a₁ b₁ a₂ b₂ : ℕ) (ha₁ : 1 ≤ a₁) (hb₁ : 1 ≤ b₁)
    (ha₂ : 1 ≤ a₂) (hb₂ : 1 ≤ b₂)
    (h : (a₁ : ℚ) / b₁ ≤ (a₂ : ℚ) / b₂) : elog a₁ b₁ ≤ elog a₂ b₂ := by
  have l1 := (elog_spec a₁ b₁ ha₁ hb₁).1
  have u2 := (elog_spec a₂ b₂ ha₂ hb₂).2
  have hlt : (2 : ℚ) ^ elog a₁ b₁ < 2 ^ (elog a₂ b₂ + 1) := by linarith
  have := (zpow_lt_zpow_iff_right₀ (by norm_num : (1 : ℚ) < 2)).mp hlt
  omega

theorem flPair_mono (a₁ b₁ a₂ b₂ : ℕ) (hb₁ : 1 ≤ b₁) (hb₂ : 1 ≤ b₂)
    (h : (a₁ : ℚ) / b₁ ≤ (a₂ : ℚ) / b₂) :
    val (flPair a₁ b₁) ≤ val (flPair a₂ b₂) := by
  by_cases ha₁ : a₁ = 0
  · subst ha₁
    rw [show flPair 0 b₁ = (0, 0) from by rw [flPair, if_pos rfl]]
    rw [show val (0, 0) = 0 from by unfold val; simp]
    exact val_nonneg _
  · have ha₁' : 1 ≤ a₁ := by omega
    have hb₁' : (0 : ℚ) < b₁ := by exact_mod_cast hb₁
    have ha₂ : 1 ≤ a₂ := by
      by_contra hc
      have ha₂0 : a₂ = 0 := by omega
      subst ha₂0
      have hq1 : (0 : ℚ) < (a₁ : ℚ) / b₁ := by positivity
      have h0 : ((0 : ℕ) : ℚ) / b₂ = 0 := by simp
      rw [h0] at h
      linarith
    rcases lt_or_eq_of_le (elog_mono a₁ b₁ a₂ b₂ ha₁' hb₁ ha₂ hb₂ h) with
      hlt | heq
    · calc val (flPair a₁ b₁) ≤ 2 ^ (elog a₁ b₁ + 1) :=
            flPair_upper a₁ b₁ ha₁' hb₁
      _ ≤ 2 ^ elog a₂ b₂ :=
            zpow_le_zpow_right₀ (by norm_num) (by omega)
      _ ≤ val (flPair a₂ b₂) := flPair_lower a₂ b₂ ha₂ hb₂
    · rw [flPair_eq a₁ b₁ ha₁' hb₁, flPair_eq a₂ b₂ ha₂ hb₂, heq]
      have hp52 := two_zpow_pos (52 - elog a₂ b₂)
      have hrne : rne ((a₁ : ℚ) / b₁ * 2 ^ (52 - elog a₂ b₂)) ≤
          rne ((a₂ : ℚ) / b₂ * 2 ^ (52 - elog a₂ b₂)) := by
        apply rne_mono
        nlinarith
      have hrne' : ((rne ((a₁ : ℚ) / b₁ * 2 ^ (52 - elog a₂ b₂)) : ℤ) : ℚ) ≤
          ((rne ((a₂ : ℚ) / b₂ * 2 ^ (52 - elog a₂ b₂)) : ℤ) : ℚ) := by
        exact_mod_cast hrne
      have := two_zpow_pos (elog a₂ b₂ - 52)
      nlinarith

theorem flPair_fst_pos (a b : ℕ) (ha : 1 ≤ a) (hb : 1 ≤ b) :
    1 ≤ (flPair a b).1 := by
  by_contra hc
  have h0 : (flPair a b).1 = 0 := by omega
  have hv : val (flPair a b) = 0 := by
    unfold val
    rw [h0]
    simp
  have := flPair_lower a b ha hb
  have := two_zpow_pos (elog a b)
  linarith

theorem pairToFrac_den_pos (m : ℕ) (e : ℤ) : 1 ≤ (pairToFrac m e).2 := by
  unfold pairToFrac
  split
  · exact le_rfl
  · exact Nat.one_le_two_pow

theorem pairToFrac_val (m : ℕ) (e : ℤ) :
    ((pairToFrac m e).1 : ℚ) / ((pairToFrac m e).2 : ℚ) = val (m, e) := by
  unfold pairToFrac val
  dsimp only
  split
  · rename_i he
    rw [Nat.cast_mul, natPow_cast_toNat he]
    simp
  · rename_i he
    rw [natPow_cast_toNat (by omega : (0:ℤ) ≤ -e), zpow_neg, div_eq_mul_inv,
      inv_inv]

theorem divFrac_den_pos (p q : ℕ × ℤ) (hq : 1 ≤ q.1) : 1 ≤ (divFrac p q).2 := by
  unfold divFrac
  split
  · exact hq
  · show 1 ≤ q.1 * 2 ^ (q.2 - p.2).toNat
    have h2 : 1 ≤ 2 ^ (q.2 - p.2).toNat := Nat.one_le_two_pow
    calc 1 = 1 * 1 := by omega
    _ ≤ q.1 * 2 ^ (q.2 - p.2).toNat := Nat.mul_le_mul hq h2

theorem divFrac_val (p q : ℕ × ℤ) (hq : 1 ≤ q.1) :
    ((divFrac p q).1 : ℚ) / ((divFrac p q).2 : ℚ) = val p / val q := by
  have hq' : (0 : ℚ) < q.1 := by exact_mod_cast hq
  have hpp := two_zpow_pos p.2
  have hpq := two_zpow_pos q.2
  unfold divFrac val
  split
  · rename_i hd
    show ((p.1 * 2 ^ (p.2 - q.2).toNat : ℕ) : ℚ) / (q.1 : ℚ) = _
    rw [Nat.cast_mul, natPow_cast_toNat hd]
    have hsplit : (2 : ℚ) ^ p.2 = 2 ^ (p.2 - q.2) * 2 ^ q.2 := by
      rw [← zpow_add₀ (by norm_num : (2 : ℚ) ≠ 0)]
      congr 1
      omega
    rw [hsplit]
    field_simp
    ring
  · rename_i hd
    show (p.1 : ℚ) / ((q.1 * 2 ^ (q.2 - p.2).toNat : ℕ) : ℚ) = _
    rw [Nat.cast_mul, natPow_cast_toNat (by omega : (0:ℤ) ≤ q.2 - p.2)]
    have hsplit : (2 : ℚ) ^ q.2 = 2 ^ (q.2 - p.2) * 2 ^ p.2 := by
      rw [← zpow_add₀ (by norm_num : (2 : ℚ) ≠ 0)]
      congr 1
      omega
    rw [hsplit]
    have := two_zpow_pos (q.2 - p.2)
    field_simp
    ring

theorem flDiv_mono (p p' q : ℕ × ℤ) (hq : 1 ≤ q.1) (h : val p ≤ val p') :
    val (flDiv p q) ≤ val (flDiv p' q) := by
  unfold flDiv
  apply flPair_mono _ _ _ _ (divFrac_den_pos p q hq) (divFrac_den_pos p' q hq)
  rw [divFrac_val p q hq, divFrac_val p' q hq]
  rcases lt_or_eq_of_le (val_nonneg q) with hv | hv
  · exact (div_le_div_right hv).mpr h
  · rw [← hv]
    simp

theorem flMul100_mono (p p' : ℕ × ℤ) (h : val p ≤ val p') :
    val (flMul100 p) ≤ val (flMul100 p') := by
  unfold flMul100
  apply flPair_mono _ _ _ _ (pairToFrac_den_pos _ _) (pairToFrac_den_pos _ _)
  rw [pairToFrac_val, pairToFrac_val]
  have h1 : val (100 * p.1, p.2) = 100 * val p := by
    unfold val
    push_cast
    ring
  have h2 : val (100 * p'.1, p'.2) = 100 * val p' := by
    unfold val
    push_cast
    ring
  rw [h1, h2]
  linarith

theorem mathRoundPair_eq (p : ℕ × ℤ) :
    (mathRoundPair p : ℤ) = ⌊val p + 1 / 2⌋ := by
  unfold mathRoundPair val
  split
  · rename_i he
    have h1 : (p.1 : ℚ) * 2 ^ p.2 = ((p.1 * 2 ^ p.2.toNat : ℕ) : ℚ) := by
      rw [Nat.cast_mul, natPow_cast_toNat he]
    rw [h1]
    rw [show ((p.1 * 2 ^ p.2.toNat : ℕ) : ℚ) =
      (((p.1 * 2 ^ p.2.toNat : ℕ) : ℤ) : ℚ) by push_cast; ring]
    rw [add_comm, Int.floor_add_int]
    rw [show ⌊(1 : ℚ) / 2⌋ = 0 by norm_num]
    omega
  · rename_i he
    have hD : (0 : ℚ) < ((2 ^ (-p.2).toNat : ℕ) : ℚ) := by positivity
    have hfl : (((2 * p.1 + 2 ^ (-p.2).toNat) / (2 * 2 ^ (-p.2).toNat) : ℕ) : ℤ) =
        ⌊((2 * p.1 + 2 ^ (-p.2).toNat : ℕ) : ℚ) /
          ((2 * 2 ^ (-p.2).toNat : ℕ) : ℚ)⌋ := by
      rw [Rat.floor_natCast_div_natCast, Int.natCast_div]
    rw [hfl]
    congr 1
    have h2 : (2 : ℚ) ^ p.2 = (((2 ^ (-p.2).toNat : ℕ)) : ℚ)⁻¹ := by
      rw [natPow_cast_toNat (by omega : (0:ℤ) ≤ -p.2), ← zpow_neg, neg_neg]
    rw [h2]
    have hDne : ((2 ^ (-p.2).toNat : ℕ) : ℚ) ≠ 0 := ne_of_gt hD
    field_simp
    push_cast
    ring

theorem mathRoundPair_mono (p p' : ℕ × ℤ) (h : val p ≤ val p') :
    mathRoundPair p ≤ mathRoundPair p' := by
  have h1 := mathRoundPair_eq p
  have h2 := mathRoundPair_eq p'
  have hfl : ⌊val p + 1 / 2⌋ ≤ ⌊val p' + 1 / 2⌋ :=
    Int.floor_mono (by linarith)
  omega

theorem roundPct_mono (n : ℕ) {k₁ k₂ : ℕ} (h : k₁ ≤ k₂) :
    roundPct k₁ n ≤ roundPct k₂ n := by
  unfold roundPct
  split
  · exact le_rfl
  · rename_i hn
    have hn1 : 1 ≤ n := by omega
    apply mathRoundPair_mono
    apply flMul100_mono
    apply flDiv_mono _ _ _ (flPair_fst_pos n 1 hn1 le_rfl)
    apply flPair_mono _ _ _ _ le_rfl le_rfl
    have : (k₁ : ℚ) ≤ (k₂ : ℚ) := by exact_mod_cast h
    simpa using this

/-- Exact rational value of the binary64 product
`float64(k) / float64(n) * 100.0` whose `math.Round` the chunk loop
persists. -/
def floatPct (k n : ℕ) : ℚ :=
  val (flMul100 (flDiv (flPair k 1) (flPair n 1)))

theorem roundPct_eq_floor (k n : ℕ) (hn : 0 < n) :
    (roundPct k n : ℤ) = ⌊floatPct k n + 1 / 2⌋ := by
  unfold roundPct floatPct
  rw [if_neg (by omega)]
  exact mathRoundPair_eq _

/-- The clamp `if progress >= 100 { progress = 95 }`: 100 is reserved for
the post-upload write. -/
def clampPct (p : Nat) : Nat := if 100 ≤ p then 95 else p

/-- The rows `k` (1-based) at which the chunk loop persists a checkpoint:
every 1000th row and always the final row. -/
def checkpointRows (n : Nat) : List Nat :=
  ((List.range n).map (· + 1)).filter (fun k => k % 1000 = 0 ∨ k = n)

/-- The sequence of progress values persisted by the chunk loop. -/
def checkpointValues (n : Nat) : List Nat :=
  (checkpointRows n).map (fun k => clampPct (roundPct k n))

section CheckpointLemmas

theorem clampPct_lt_100 (p : Nat) : clampPct p < 100 := by
  unfold clampPct
  split <;> omega

theorem checkpointValues_lt_100 {n v : Nat} (hv : v ∈ checkpointValues n) :
    v < 100 := by
  unfold checkpointValues at hv
  obtain ⟨k, _, rfl⟩ := List.mem_map.mp hv
  exact clampPct_lt_100 _

theorem mem_checkpointRows {n k : Nat} :
    k ∈ checkpointRows n ↔ 1 ≤ k ∧ k ≤ n ∧ (k % 1000 = 0 ∨ k = n) := by
  unfold checkpointRows
  simp only [List.mem_filter, List.mem_map, List.mem_range]
  constructor
  · rintro ⟨⟨j, hj, rfl⟩, hmod⟩
    refine ⟨by omega, by omega, by simpa using hmod⟩
  · rintro ⟨h1, h2, h3⟩
    exact ⟨⟨k - 1, by omega, by omega⟩, by simpa using h3⟩

/-- The chunk loop clamps, so the only way a later checkpoint can be
smaller than an earlier one is the drop to exactly 95 from a value that
was still below 100. -/
theorem checkpoint_drop {n k₁ k₂ : Nat} (hk : k₁ ≤ k₂)
    (hlt : clampPct (roundPct k₂ n) < clampPct (roundPct k₁ n)) :
    clampPct (roundPct k₂ n) = 95 ∧ clampPct (roundPct k₁ n) < 100 := by
  refine ⟨?_, clampPct_lt_100 _⟩
  have hmono := roundPct_mono n hk
  unfold clampPct at hlt ⊢
  split at hlt <;> split at hlt <;> simp_all <;> omega

end CheckpointLemmas

/-! ### Persisted-write traces of the export tasks

Each `runXExport` task persists the job status at a bounded series of
checkpoints (always writing both cache representations).  The trace below
lists, in order, the `ExportStatus` value at each persisted write:

* element 0 — the write made by `StartXExport` before the task launches;
* one element per chunk checkpoint (`saveExportStatus`/`saveLaravelCache`
  inside the row loop);
* the pre-upload write at progress 95;
* the terminal write (artifact URL or error message) where the code makes
  one.

External outcomes (row fetch, buffer serialization, upload, presign) are
explicit parameters. -/

/-- Result of the single blocking row fetch (`s.repo.List`): error, or a
row count (row contents never influence the persisted statuses). -/
inductive FetchResult where
  | err
  | ok (n : Nat)
deriving DecidableEq, Repr

/-- Outcome of the tail of an S3-backed export task (debts/users/actions):
buffer serialization failure, no S3 client configured, upload failure
(after retries), presign failure, or success with the presigned URL. -/
inductive S3Tail where
  | bufErr
  | noS3
  | uploadErr
  | presignErr
  | success (url : String)
deriving DecidableEq, Repr

/-- Outcome of the tail of the local-storage payments task: buffer
serialization failure, no storage client, save failure with its error
text, or success with the public URL. -/
inductive StorageTail where
  | bufErr
  | noStorage
  | saveErr (msg : String)
  | success (url : String)
deriving DecidableEq, Repr

/-- Writes made after the row loop by `runDebtsExport` (and its users
twin): the 95 "uploading" write, then — only on fully successful upload
and presign — the terminal write with the artifact URL.  On upload or
presign failure the task stops silently, leaving the job at 95. -/
def debtsTailWrites (base : ExportStatus) : S3Tail → List ExportStatus
  | .bufErr => []
  | .noS3 => []
  | .uploadErr => [{ base with progress := 95 }]
  | .presignErr => [{ base with progress := 95 }]
  | .success url =>
      [{ base with progress := 95 },
       { base with progress := 100, fileURL := some url }]

/-- Writes made after the row loop by `runPaymentsExport`: the 95
"uploading" write, then either the terminal error write (save failed:
error message and progress 100) or the terminal success write. -/
def paymentsTailWrites (base : ExportStatus) : StorageTail → List ExportStatus
  | .bufErr => []
  | .noStorage => []
  | .saveErr msg =>
      [{ base with progress := 95 },
       { base with
          progress := 100
          error := some ("save export failed: " ++ msg) }]
  | .success url =>
      [{ base with progress := 95 },
       { base with progress := 100, fileURL := some url }]

/-- The column keys of the debts export registry (`debtColumns`). -/
def debtColumnKeys : List String :=
  ["debtor.full_name", "debtor.iin", "registry.number", "registry.date",
   "counterparty.name", "user.username", "user.departments", "status.name",
   "start_date", "end_date", "filial", "product_name", "amount_currency",
   "amount_actual_debt", "amount_purchased_loan", "init_amount_actual_debt",
   "amount_credit", "amount_main_debt", "amount_fine", "amount_accrual",
   "amount_government_duty", "amount_representation_expenses",
   "amount_notary_fees", "amount_postage", "transfer_decision",
   "presence_solidarity", "government_duty_paid", "government_duty_refund",
   "representation_expenses_paid", "late_due_date", "next_contact",
   "last_contact", "additional_data", "number"]

/-- The column keys of the payments export registry (`paymentColumns`). -/
def paymentColumnKeys : List String :=
  ["id", "debt_id", "user_id", "confirmed", "amount",
   "amount_after_subtraction", "amount_government_duty",
   "amount_representation_expenses", "amount_notary_fees", "amount_postage",
   "amount_accounts_receivable", "amount_main_debt", "amount_accrual",
   "amount_fine", "payment_date", "created_at", "updated_at", "deleted_at"]

/-- Key resolution against a column registry: unknown keys are dropped
silently, in selection order (`for _, key := range selected { ... }`). -/
def resolveCols (registry : List String) (selected : List String) :
    List String :=
  selected.filter (fun k => k ∈ registry)

/-- Persisted writes of the `runDebtsExport` task body (everything after
the `StartDebtsExport` write).  Fetch error and empty resolved column set
abort with no writes at all. -/
def runDebtsExportWrites (base : ExportStatus) (selected : List String)
    (fetch : FetchResult) (tail : S3Tail) : List ExportStatus :=
  match fetch with
  | .err => []
  | .ok n =>
      if resolveCols debtColumnKeys selected = [] then []
      else
        (checkpointValues n).map (fun p => { base with progress := p }) ++
          debtsTailWrites base tail

/-- Persisted writes of the `runPaymentsExport` task body. -/
def runPaymentsExportWrites (base : ExportStatus) (selected : List String)
    (fetch : FetchResult) (tail : StorageTail) : List ExportStatus :=
  match fetch with
  | .err => []
  | .ok n =>
      if resolveCols paymentColumnKeys selected = [] then []
      else
        (checkpointValues n).map (fun p => { base with progress := p }) ++
          paymentsTailWrites base tail

/-- The full persisted-status trace of a debts job: the submission-time
write (progress 0) followed by the task's writes. -/
def debtsJobTrace (key : String) (userID : Int)
    (filters : List (String × Option String)) (created : DateTime)
    (selected : List String) (fetch : FetchResult) (tail : S3Tail) :
    List ExportStatus :=
  let base := mkStatus key "debts" userID filters created
  base :: runDebtsExportWrites base selected fetch tail

/-- The full persisted-status trace of a payments job. -/
def paymentsJobTrace (key : String) (userID : Int)
    (filters : List (String × Option String)) (created : DateTime)
    (selected : List String) (fetch : FetchResult) (tail : StorageTail) :
    List ExportStatus :=
  let base := mkStatus key "payments" userID filters created
  base :: runPaymentsExportWrites base selected fetch tail

/-- Progress values of the tail writes of an S3-backed task. -/
def s3TailNat : S3Tail → List Nat
  | .bufErr => []
  | .noS3 => []
  | .uploadErr => [95]
  | .presignErr => [95]
  | .success _ => [95, 100]

/-- Progress values of the tail writes of the payments task. -/
def storageTailNat : StorageTail → List Nat
  | .bufErr => []
  | .noStorage => []
  | .saveErr _ => [95, 100]
  | .success _ => [95, 100]

theorem debtsJobTrace_map_progress_err (key : String) (uid : Int)
    (fl : List (String × Option String)) (cr : DateTime)
    (sel : List String) (t : S3Tail) :
    (debtsJobTrace key uid fl cr sel .err t).map (·.progress) = [0] := by
  simp [debtsJobTrace, runDebtsExportWrites, mkStatus]

theorem debtsJobTrace_map_progress_ok (key : String) (uid : Int)
    (fl : List (String × Option String)) (cr : DateTime)
    (sel : List String) (n : Nat) (t : S3Tail) :
    (debtsJobTrace key uid fl cr sel (.ok n) t).map (·.progress) =
      0 :: (if resolveCols debtColumnKeys sel = [] then []
            else checkpointValues n ++ s3TailNat t) := by
  simp only [debtsJobTrace, runDebtsExportWrites, List.map_cons, mkStatus]
  split
  · simp [mkStatus]
  · cases t <;>
      simp [debtsTailWrites, s3TailNat, List.map_append, List.map_map,
        Function.comp_def, List.map_id', mkStatus]

theorem paymentsJobTrace_map_progress_err (key : String) (uid : Int)
    (fl : List (String × Option String)) (cr : DateTime)
    (sel : List String) (t : StorageTail) :
    (paymentsJobTrace key uid fl cr sel .err t).map (·.progress) = [0] := by
  simp [paymentsJobTrace, runPaymentsExportWrites, mkStatus]

theorem paymentsJobTrace_map_progress_ok (key : String) (uid : Int)
    (fl : List (String × Option String)) (cr : DateTime)
    (sel : List String) (n : Nat) (t : StorageTail) :
    (paymentsJobTrace key uid fl cr sel (.ok n) t).map (·.progress) =
      0 :: (if resolveCols paymentColumnKeys sel = [] then []
            else checkpointValues n ++ storageTailNat t) := by
  simp only [paymentsJobTrace, runPaymentsExportWrites, List.map_cons,
    mkStatus]
  split
  · simp [mkStatus]
  · cases t <;>
      simp [paymentsTailWrites, storageTailNat, List.map_append,
        List.map_map, Function.comp_def, List.map_id', mkStatus]

/-! ### C1: progress 100 exactly at terminal states -/

/-- C1: for every persisted Job Status record of a debts or payments export
job — the submission-time write, every chunk checkpoint, the pre-upload 95
write, and the terminal write — progress equals 100 exactly when the
artifact URL or the error message has been set: no persisted status has
progress 100 with both unset, and none has a URL or error with progress
different from 100. -/
theorem persisted_progress_100_iff_terminal (key : String) (uid : Int)
    (fl : List (String × Option String)) (cr : DateTime)
    (sel : List String) (fetch : FetchResult) (ts : S3Tail)
    (tp : StorageTail) (st : ExportStatus)
    (h : st ∈ debtsJobTrace key uid fl cr sel fetch ts ∨
         st ∈ paymentsJobTrace key uid fl cr sel fetch tp) :
    st.progress = 100 ↔ (st.fileURL ≠ none ∨ st.error ≠ none) := by
  rcases h with h | h
  · simp only [debtsJobTrace, List.mem_cons] at h
    rcases h with rfl | h
    · simp [mkStatus]
    · cases fetch with
      | err => simp [runDebtsExportWrites] at h
      | ok n =>
          simp only [runDebtsExportWrites] at h
          split at h
          · simp at h
          · rcases List.mem_append.mp h with h | h
            · obtain ⟨p, hp, rfl⟩ := List.mem_map.mp h
              have hlt := checkpointValues_lt_100 hp
              simp [mkStatus]
              omega
            · cases ts <;> simp [debtsTailWrites] at h <;>
                rcases h with rfl | rfl <;> simp [mkStatus]
  · simp only [paymentsJobTrace, List.mem_cons] at h
    rcases h with rfl | h
    · simp [mkStatus]
    · cases fetch with
      | err => simp [runPaymentsExportWrites] at h
      | ok n =>
          simp only [runPaymentsExportWrites] at h
          split at h
          · simp at h
          · rcases List.mem_append.mp h with h | h
            · obtain ⟨p, hp, rfl⟩ := List.mem_map.mp h
              have hlt := checkpointValues_lt_100 hp
              simp [mkStatus]
              omega
            · cases tp <;> simp [paymentsTailWrites] at h <;>
                rcases h with rfl | rfl <;> simp [mkStatus]

set_option maxRecDepth 400000 in
/-- Witness for C1 at a concrete trace element: the terminal write of a
successful 2500-row debts export. -/
theorem persisted_progress_100_iff_terminal_witness :
    ({ key := "exports:w", typ := "debts", userID := 7, filters := [],
       progress := 100, fileURL := some "http://u", error := none,
       created := ⟨2026, 1, 2, 3, 4, 5⟩ } : ExportStatus) ∈
        debtsJobTrace "exports:w" 7 [] ⟨2026, 1, 2, 3, 4, 5⟩ ["number"]
          (.ok 2500) (.success "http://u") ∧
    (({ key := "exports:w", typ := "debts", userID := 7, filters := [],
        progress := 100, fileURL := some "http://u", error := none,
        created := ⟨2026, 1, 2, 3, 4, 5⟩ } : ExportStatus).progress = 100 ↔
      (({ key := "exports:w", typ := "debts", userID := 7, filters := [],
          progress := 100, fileURL := some "http://u", error := none,
          created := ⟨2026, 1, 2, 3, 4, 5⟩ } : ExportStatus).fileURL ≠ none ∨
       ({ key := "exports:w", typ := "debts", userID := 7, filters := [],
          progress := 100, fileURL := some "http://u", error := none,
          created := ⟨2026, 1, 2, 3, 4, 5⟩ } : ExportStatus).error ≠ none)) := by
  refine ⟨by decide, ?_⟩
  exact persisted_progress_100_iff_terminal "exports:w" 7 []
    ⟨2026, 1, 2, 3, 4, 5⟩ ["number"] (.ok 2500) (.success "http://u")
    .bufErr _ (Or.inl (by decide))

/-! ### C2: ordering of persisted progress values -/

/-- Relation between consecutive persisted progress values: a later write
may only be smaller than its predecessor by dropping to exactly 95 from a
checkpoint that was still below 100. -/
def progressStep (a b : Nat) : Prop := b < a → b = 95 ∧ a < 100

theorem chain'_checkpointValues (n : Nat) :
    List.Chain' progressStep (checkpointValues n) := by
  apply List.Pairwise.chain'
  have h0 : List.Pairwise (· < ·) (List.range n) := List.sorted_lt_range n
  have h1 : List.Pairwise (fun a b : Nat => a < b)
      ((List.range n).map (· + 1)) :=
    List.Pairwise.map _ (fun a b h => by omega) h0
  have h2 : List.Pairwise (fun a b : Nat => a < b) (checkpointRows n) :=
    h1.filter _
  unfold checkpointValues
  exact List.Pairwise.map _
    (fun a b hab hlt => checkpoint_drop (Nat.le_of_lt hab) hlt) h2

theorem chain'_progressSeq (n : Nat) (t : List Nat)
    (ht : t = [] ∨ t = [95] ∨ t = [95, 100]) :
    List.Chain' progressStep (0 :: (checkpointValues n ++ t)) := by
  have hcv := chain'_checkpointValues n
  have ht' : List.Chain' progressStep t := by
    rcases ht with rfl | rfl | rfl
    · exact List.chain'_nil
    · simp [List.chain'_singleton]
    · refine List.chain'_cons.mpr ⟨?_, by simp [List.chain'_singleton]⟩
      intro h
      omega
  have happ : List.Chain' progressStep (checkpointValues n ++ t) := by
    refine List.chain'_append.mpr ⟨hcv, ht', ?_⟩
    intro x hx y hy
    obtain ⟨hne, rfl⟩ := List.mem_getLast?_eq_getLast hx
    have hxmem : (checkpointValues n).getLast hne ∈ checkpointValues n :=
      List.getLast_mem hne
    have hx100 := checkpointValues_lt_100 hxmem
    intro _
    have hy95 : y = 95 := by
      rcases ht with rfl | rfl | rfl <;> simp_all
    exact ⟨hy95, hx100⟩
  refine List.chain'_cons'.mpr ⟨?_, happ⟩
  intro y _ hy
  omega

set_option maxRecDepth 400000 in
/-- C2 counterexample: for a 1030-row debts export the chunk checkpoint at
row 1000 persists progress 97, and the final-row checkpoint then persists
95 (the raw value 100 clamped), so the persisted progress sequence
0, 97, 95, 95, 100 is not non-decreasing. -/
theorem progress_nondecreasing_counterexample :
    ((debtsJobTrace "exports:c" 1 [] ⟨2026, 1, 2, 3, 4, 5⟩ ["number"]
        (.ok 1030) (.success "http://u")).map (·.progress) =
      [0, 97, 95, 95, 100]) ∧
    ¬ List.Pairwise (· ≤ ·)
        ((debtsJobTrace "exports:c" 1 [] ⟨2026, 1, 2, 3, 4, 5⟩ ["number"]
            (.ok 1030) (.success "http://u")).map (·.progress)) := by
  constructor <;> decide

/-- C2 (amended): over the lifetime of a debts or payments export job the
persisted progress sequence (initial 0, chunk checkpoints, pre-upload 95,
final 100) never decreases, except that a chunk checkpoint strictly
between 95 and 100 may be followed by a write of exactly 95 (the ≥100
clamp on the final chunks); in particular no write ever drops below 95
once 95 is reached, and no write other than the terminal one reaches
100. -/
theorem progress_drops_only_to_95 (key : String) (uid : Int)
    (fl : List (String × Option String)) (cr : DateTime)
    (sel : List String) (fetch : FetchResult) (ts : S3Tail)
    (tp : StorageTail) :
    List.Chain' progressStep
      ((debtsJobTrace key uid fl cr sel fetch ts).map (·.progress)) ∧
    List.Chain' progressStep
      ((paymentsJobTrace key uid fl cr sel fetch tp).map (·.progress)) := by
  constructor
  · cases fetch with
    | err =>
        rw [debtsJobTrace_map_progress_err]
        simp [List.chain'_singleton]
    | ok n =>
        rw [debtsJobTrace_map_progress_ok]
        split
        · simp [List.chain'_singleton]
        · refine chain'_progressSeq n (s3TailNat ts) ?_
          cases ts <;> simp [s3TailNat]
  · cases fetch with
    | err =>
        rw [paymentsJobTrace_map_progress_err]
        simp [List.chain'_singleton]
    | ok n =>
        rw [paymentsJobTrace_map_progress_ok]
        split
        · simp [List.chain'_singleton]
        · refine chain'_progressSeq n (storageTailNat tp) ?_
          cases tp <;> simp [storageTailNat]

/-! ### C3: checkpoint schedule and values -/

set_option maxRecDepth 400000 in
/-- C3 counterexample: 23000 is a reachable checkpoint row of a 40000-row
export (a multiple of 1000 below the count ceiling), and there the program
persists `math.Round(float64(23000)/float64(40000)*100) = 57` — the
binary64 quotient times 100 lands just below 57.5 — while the claimed
formula `round(rowsDone/totalRows*100)` gives `round(57.5) = 58`. -/
theorem checkpoint_round_formula_counterexample :
    roundPct 23000 40000 = 57 ∧
    clampPct (roundPct 23000 40000) = 57 ∧
    23000 ∈ checkpointRows 40000 ∧
    round ((23000 : ℚ) * 100 / 40000) = 58 := by
  refine ⟨by decide, by decide, ?_, ?_⟩
  · rw [mem_checkpointRows]
    decide
  · have h : (23000 : ℚ) * 100 / 40000 = 115 / 2 := by norm_num
    rw [h, round_eq]
    norm_num

set_option maxRecDepth 400000 in
/-- C3 (amended): for every export of `n > 0` rows a progress checkpoint
is persisted and published exactly after every 1000th row and on the
final row, with value `math.Round(float64(rowsDone)/float64(n)*100)` —
the binary64 computation, i.e. the exact float product rounded half away
from zero, which can land one below the exact `round(rowsDone/n*100)`
when the product falls just under a half-integer boundary — except that
any value reaching 100 is replaced by 95.  The checkpoint value is
non-decreasing in `rowsDone` and every checkpoint persisted before the
upload completes is strictly less than 100; a 2500-row export emits
checkpoints 40 (row 1000), 80 (row 2000) and 95 (row 2500), then 95 with
stage "uploading", then a final 100. -/
theorem checkpoint_schedule (n : Nat) (hn : 0 < n) :
    (∀ k, k ∈ checkpointRows n ↔
        1 ≤ k ∧ k ≤ n ∧ (k % 1000 = 0 ∨ k = n)) ∧
    (checkpointValues n =
      (checkpointRows n).map (fun k => clampPct (roundPct k n))) ∧
    (∀ k, (roundPct k n : ℤ) = ⌊floatPct k n + 1 / 2⌋) ∧
    (∀ k₁ k₂, k₁ ≤ k₂ → roundPct k₁ n ≤ roundPct k₂ n) ∧
    (∀ p, 100 ≤ p → clampPct p = 95) ∧
    (∀ p, p < 100 → clampPct p = p) ∧
    (∀ v ∈ checkpointValues n, v < 100) ∧
    ((debtsJobTrace "exports:e" 1 [] ⟨2026, 1, 2, 3, 4, 5⟩ ["number"]
        (.ok 2500) (.success "http://u")).map (·.progress) =
      [0, 40, 80, 95, 95, 100]) := by
  refine ⟨fun k => mem_checkpointRows, rfl,
    fun k => roundPct_eq_floor k n hn, fun k₁ k₂ h => roundPct_mono n h,
    ?_, ?_, fun v hv => checkpointValues_lt_100 hv, ?_⟩
  · intro p hp
    simp [clampPct, hp]
  · intro p hp
    simp [clampPct]
    omega
  · decide

set_option maxRecDepth 400000 in
/-- Witness for C3 (amended) at `n = 2500`. -/
theorem checkpoint_schedule_witness :
    0 < 2500 ∧
    (1000 ∈ checkpointRows 2500 ↔
      1 ≤ 1000 ∧ 1000 ≤ 2500 ∧ (1000 % 1000 = 0 ∨ 1000 = 2500)) ∧
    roundPct 1000 2500 ≤ roundPct 2000 2500 ∧
    (∀ v ∈ checkpointValues 2500, v < 100) := by
  have h := checkpoint_schedule 2500 (by decide)
  exact ⟨by decide, h.1 1000, h.2.2.2.1 1000 2000 (by decide),
    h.2.2.2.2.2.2.1⟩

/-! ### C4: UploadXLSX retry loop (s3.go)

The retry loop of `UploadXLSX` is embedded with the S3 `PutObject` call and
the cancellable context as explicit oracles: `putFails i` is the error (if
any) of the i-th `PutObject` attempt, `ctxErrAt i` tells whether
`ctx.Err()` is already non-nil at the check preceding attempt i, and
`ctxDoneDuringWait i` tells whether `ctx.Done()` fires during the backoff
wait that follows a failed attempt i.  The trace records which attempts
actually invoked `PutObject` and which backoff durations (ms) were
waited. -/

/-- Behaviour of the S3 client and the context during one `UploadXLSX`
call. -/
structure UploadModel where
  putFails : Nat → Option String
  ctxErrAt : Nat → Bool
  ctxDoneDuringWait : Nat → Bool

/-- Return value of `UploadXLSX`: the object key on success, the context's
cancellation error, or the wrapped error naming the key and the attempt
count (`put object %q failed after %d attempts`). -/
inductive UploadResult where
  | ok (key : String)
  | canceled
  | failedAfter (key : String) (attempts : Nat) (lastErr : Option String)
deriving DecidableEq, Repr

/-- Observable trace of one `UploadXLSX` call. -/
structure UploadTrace where
  result : UploadResult
  attemptsMade : List Nat
  waits : List Nat
deriving DecidableEq, Repr

/-- Constant `attempts := 3` in the source. -/
def uploadAttempts : Nat := 3

/-- The `for attempt := 1; attempt <= attempts; attempt++` loop, with the
remaining iteration budget as structural fuel (`fuel = attempts - attempt
+ 1` at every call). -/
def uploadLoop (key : String) (m : UploadModel) :
    Nat → Nat → Nat → Option String → List Nat → List Nat → UploadTrace
  | 0, _, _, lastErr, made, waits =>
      ⟨.failedAfter key uploadAttempts lastErr, made, waits⟩
  | fuel + 1, attempt, backoff, lastErr, made, waits =>
      if m.ctxErrAt attempt then ⟨.canceled, made, waits⟩
      else
        match m.putFails attempt with
        | none => ⟨.ok key, made ++ [attempt], waits⟩
        | some e =>
            if attempt < uploadAttempts then
              if m.ctxDoneDuringWait attempt then
                ⟨.canceled, made ++ [attempt], waits⟩
              else
                uploadLoop key m fuel (attempt + 1) (backoff * 2) (some e)
                  (made ++ [attempt]) (waits ++ [backoff])
            else
              ⟨.failedAfter key uploadAttempts (some e),
               made ++ [attempt], waits⟩

/-- Embeds `UploadXLSX`: key is `c.prefix + fileName`, 3 attempts, backoff
starting at 500ms and doubling. -/
def uploadXLSX (pre fileName : String) (m : UploadModel) : UploadTrace :=
  uploadLoop (pre ++ fileName) m uploadAttempts 1 500 none [] []

theorem uploadLoop_attempts_le (key : String) (m : UploadModel) :
    ∀ fuel attempt backoff lastErr made waits,
      (uploadLoop key m fuel attempt backoff lastErr made
          waits).attemptsMade.length ≤ made.length + fuel := by
  intro fuel
  induction fuel with
  | zero => intro attempt backoff lastErr made waits; simp [uploadLoop]
  | succ fuel ih =>
      intro attempt backoff lastErr made waits
      rw [uploadLoop]
      split
      · simp
      · split
        · simp
        · split
          · split
            · simp
            · calc (uploadLoop key m fuel (attempt + 1) (backoff * 2) _
                      (made ++ [attempt]) _).attemptsMade.length ≤
                    (made ++ [attempt]).length + fuel := ih _ _ _ _ _
                _ = made.length + (fuel + 1) := by simp; omega
          · simp

/-- C4: `UploadXLSX` makes at most 3 attempts, with backoff doubling from
500ms; a store failing twice then succeeding yields success on exactly the
3rd attempt after waits of 500ms and 1000ms; three failures yield the
wrapped error carrying the object key and the attempt count 3; and a
cancellation signal firing at any of the loop's cancellation points — the
check before attempt 1, 2 or 3, or the backoff wait after attempt 1 or 2
(the only points at which the loop consults the context) — yields the
cancellation error immediately, with no further attempt made and no
further wait completed. -/
theorem uploadXLSX_retry_contract (pre file : String) (m : UploadModel) :
    ((uploadXLSX pre file m).attemptsMade.length ≤ 3) ∧
    (m.ctxErrAt 1 = false → m.ctxErrAt 2 = false → m.ctxErrAt 3 = false →
      m.ctxDoneDuringWait 1 = false → m.ctxDoneDuringWait 2 = false →
      ∀ e₁ e₂, m.putFails 1 = some e₁ → m.putFails 2 = some e₂ →
        m.putFails 3 = none →
        uploadXLSX pre file m = ⟨.ok (pre ++ file), [1, 2, 3], [500, 1000]⟩) ∧
    (m.ctxErrAt 1 = false → m.ctxErrAt 2 = false → m.ctxErrAt 3 = false →
      m.ctxDoneDuringWait 1 = false → m.ctxDoneDuringWait 2 = false →
      ∀ e₁ e₂ e₃, m.putFails 1 = some e₁ → m.putFails 2 = some e₂ →
        m.putFails 3 = some e₃ →
        uploadXLSX pre file m =
          ⟨.failedAfter (pre ++ file) 3 (some e₃), [1, 2, 3], [500, 1000]⟩) ∧
    (m.ctxErrAt 1 = true → uploadXLSX pre file m = ⟨.canceled, [], []⟩) ∧
    (m.ctxErrAt 1 = false → ∀ e₁, m.putFails 1 = some e₁ →
      m.ctxDoneDuringWait 1 = true →
      uploadXLSX pre file m = ⟨.canceled, [1], []⟩) ∧
    (m.ctxErrAt 1 = false → m.ctxDoneDuringWait 1 = false →
      m.ctxErrAt 2 = true → ∀ e₁, m.putFails 1 = some e₁ →
      uploadXLSX pre file m = ⟨.canceled, [1], [500]⟩) ∧
    (m.ctxErrAt 1 = false → m.ctxDoneDuringWait 1 = false →
      m.ctxErrAt 2 = false → m.ctxDoneDuringWait 2 = true →
      ∀ e₁ e₂, m.putFails 1 = some e₁ → m.putFails 2 = some e₂ →
      uploadXLSX pre file m = ⟨.canceled, [1, 2], [500]⟩) ∧
    (m.ctxErrAt 1 = false → m.ctxDoneDuringWait 1 = false →
      m.ctxErrAt 2 = false → m.ctxDoneDuringWait 2 = false →
      m.ctxErrAt 3 = true → ∀ e₁ e₂, m.putFails 1 = some e₁ →
      m.putFails 2 = some e₂ →
      uploadXLSX pre file m = ⟨.canceled, [1, 2], [500, 1000]⟩) := by
  refine ⟨uploadLoop_attempts_le (pre ++ file) m 3 1 500 none [] [], ?_, ?_,
    ?_, ?_, ?_, ?_, ?_⟩
  · intro h1 h2 h3 w1 w2 e₁ e₂ hp1 hp2 hp3
    simp [uploadXLSX, uploadLoop, uploadAttempts, h1, h2, h3, w1, w2,
      hp1, hp2, hp3]
  · intro h1 h2 h3 w1 w2 e₁ e₂ e₃ hp1 hp2 hp3
    simp [uploadXLSX, uploadLoop, uploadAttempts, h1, h2, h3, w1, w2,
      hp1, hp2, hp3]
  · intro h1
    simp [uploadXLSX, uploadLoop, uploadAttempts, h1]
  · intro h1 e₁ hp1 w1
    simp [uploadXLSX, uploadLoop, uploadAttempts, h1, hp1, w1]
  · intro h1 w1 h2 e₁ hp1
    simp [uploadXLSX, uploadLoop, uploadAttempts, h1, w1, h2, hp1]
  · intro h1 w1 h2 w2 e₁ e₂ hp1 hp2
    simp [uploadXLSX, uploadLoop, uploadAttempts, h1, w1, h2, w2, hp1, hp2]
  · intro h1 w1 h2 w2 h3 e₁ e₂ hp1 hp2
    simp [uploadXLSX, uploadLoop, uploadAttempts, h1, w1, h2, w2, h3,
      hp1, hp2]

/-- Witness for C4: a store that fails twice then succeeds, with no
cancellation, succeeds after exactly attempts 1, 2, 3 and waits 500, 1000;
and a cancellation detected before attempt 3 stops a failing store after
attempts 1 and 2. -/
theorem uploadXLSX_retry_contract_witness :
    uploadXLSX "exports/" "debts.xlsx"
        ⟨fun i => if i < 3 then some "boom" else none,
         fun _ => false, fun _ => false⟩ =
      ⟨.ok "exports/debts.xlsx", [1, 2, 3], [500, 1000]⟩ ∧
    uploadXLSX "exports/" "debts.xlsx"
        ⟨fun _ => some "boom", fun i => i == 3, fun _ => false⟩ =
      ⟨.canceled, [1, 2], [500, 1000]⟩ := by
  refine ⟨?_, ?_⟩
  · exact (uploadXLSX_retry_contract "exports/" "debts.xlsx"
      ⟨fun i => if i < 3 then some "boom" else none,
       fun _ => false, fun _ => false⟩).2.1
      rfl rfl rfl rfl rfl "boom" "boom" rfl rfl rfl
  · exact (uploadXLSX_retry_contract "exports/" "debts.xlsx"
      ⟨fun _ => some "boom", fun i => i == 3,
       fun _ => false⟩).2.2.2.2.2.2.2
      rfl rfl rfl rfl rfl "boom" "boom" rfl rfl

/-! ### Legacy-compatible cache serialization (phpSerializeExportItem) -/

/-- The PHP string scalar `s:len:"...";` with the byte length of the
string, as Go's `len` computes it. -/
def phpStr (s : String) : String :=
  "s:" ++ toString s.utf8ByteSize ++ ":\"" ++ s ++ "\";"

/-- Embeds `phpSerializeExportItem`: the compact length-prefixed serialization of
a cache item, written entry by entry exactly as the `strings.Builder`
chain in the source.  The `Error` field of the item is never serialized,
and `filters` is hard-coded to the empty structure.  (`d:%.0f;` renders
the progress float with no fractional digits; every progress value the
program stores is a whole number, embedded as `Nat`.) -/
def phpSerializeExportItem (item : ExportCacheItem) : String :=
  "a:7:\x7b" ++
    phpStr "key" ++ phpStr item.key ++
    phpStr "type" ++ phpStr item.typ ++
    phpStr "user_id" ++ ("i:" ++ toString item.userID ++ ";") ++
    phpStr "filters" ++ "a:0:\x7b\x7d" ++
    phpStr "progress" ++ ("d:" ++ toString item.progress ++ ";") ++
    phpStr "file_url" ++
      (match item.fileURL with
       | none => "N;"
       | some u => if u = "" then "N;" else phpStr u) ++
    phpStr "created_at" ++ phpStr item.created ++
    "\x7d"

/-- Embeds `toCacheItem` (debts/actions/users services): drops the filter
description entirely and leaves the error field at its zero value. -/
def toCacheItem (st : ExportStatus) : ExportCacheItem :=
  { key := st.key, typ := st.typ, userID := st.userID,
    progress := st.progress, fileURL := st.fileURL, error := none,
    created := formatDateTime st.created }

/-- The payments service builds its cache item inline, copying the error
field as well (which the serializer then ignores). -/
def paymentsCacheItem (st : ExportStatus) : ExportCacheItem :=
  { key := st.key, typ := st.typ, userID := st.userID,
    progress := st.progress, fileURL := st.fileURL, error := st.error,
    created := formatDateTime st.created }

/-- The fixed legacy cache key namespace (`pkb_database_cache`), shared by
all export services. -/
def cachePre : String := "pkb_database_cache"

/-- Embeds `saveLaravelCache` as a pure key/value pair: key is the fixed
namespace concatenated with the job ID, value the PHP serialization. -/
def saveLaravelCacheEntry (st : ExportStatus) : String × String :=
  (cachePre ++ st.key, phpSerializeExportItem (toCacheItem st))

/-- The payments variant of `saveLaravelCache`. -/
def paymentsLaravelEntry (st : ExportStatus) : String × String :=
  (cachePre ++ st.key, phpSerializeExportItem (paymentsCacheItem st))

/-- Concatenation of serialized entries, for stating the shape of the
legacy format. -/
def entriesConcat : List (String × String) → String
  | [] => ""
  | e :: es => phpStr e.1 ++ e.2 ++ entriesConcat es

/-! ### Status reads (ExportService.GetExport) -/

/-- Embeds `ruPlural`: Russian pluralization by magnitude. -/
def ruPlural (n : Int) (one few many : String) : String :=
  let n1 := n.emod 100
  if 11 ≤ n1 ∧ n1 ≤ 14 then many
  else
    let n2 := n1.emod 10
    if n2 = 1 then one
    else if n2 = 2 ∨ n2 = 3 ∨ n2 = 4 then few
    else many

/-- Embeds `humanizeRuAgo`: human-relative age label (seconds/minutes/hours/days,
absolute date beyond ~30 days). -/
def humanizeRuAgo (now t : DateTime) : String :=
  if now.toSeconds < t.toSeconds then "только что"
  else
    let minutes := (now.toSeconds - t.toSeconds).ediv 60
    if minutes < 1 then "только что"
    else if minutes < 60 then
      toString minutes ++ " " ++ ruPlural minutes "минута" "минуты" "минут"
        ++ " назад"
    else
      let hours := minutes.ediv 60
      if hours < 24 then
        toString hours ++ " " ++ ruPlural hours "час" "часа" "часов"
          ++ " назад"
      else
        let days := hours.ediv 24
        if days < 30 then
          toString days ++ " " ++ ruPlural days "день" "дня" "дней"
            ++ " назад"
        else
          pad2 t.day ++ "." ++ pad2 t.month ++ "." ++ pad4 t.year ++ " " ++
            pad2 t.hour ++ ":" ++ pad2 t.minute

/-- The rendered map `GetExport`/`GetExports` returns for one status. -/
structure ExportView where
  key : String
  typ : String
  userID : Int
  progress : Nat
  fileURL : Option String
  filters : List (String × Option String)
  createdLabel : String
deriving DecidableEq, Repr

/-- Rendering of a status into the response map. -/
def renderExport (now : DateTime) (st : ExportStatus) : ExportView :=
  { key := st.key, typ := st.typ, userID := st.userID,
    progress := st.progress, fileURL := st.fileURL, filters := st.filters,
    createdLabel := humanizeRuAgo now st.created }

/-- Embeds `ExportService.GetExport`: the Redis `Get` plus `json.Unmarshal` pair
is embedded as a typed lookup `store : String → Option ExportStatus` (a
missing key and an unparsable value both leave the claim's two compared
cases untouched).  A missing record and a record owned by a different
user both produce the same `"export not found"` error. -/
def getExport (store : String → Option ExportStatus) (now : DateTime)
    (exportID : String) (userID : Int) : Except String ExportView :=
  match store exportID with
  | none => .error "export not found"
  | some status =>
      if status.userID ≠ userID then .error "export not found"
      else .ok (renderExport now status)

/-! ### Job submission (StartDebtsExport / StartActionsExport /
StartPaymentsExport) -/

/-- Observable effects of one `StartXExport` call: its return value, the
primary status writes, the legacy cache writes, and the field selection
passed to the background task (`none` when no task was launched). -/
structure SubmitEffects where
  result : Except String String
  savedStatuses : List ExportStatus
  savedLaravel : List (String × String)
  task : Option (List String)
deriving Repr

/-- Default field selection of the debts export. -/
def debtsDefaultFields : List String :=
  ["number", "debtor.full_name", "amount_actual_debt"]

/-- Default field selection of the actions export. -/
def actionsDefaultFields : List String :=
  ["debt.number", "actionType.name", "user.full_name", "comment",
   "created_at"]

/-- Default field selection of the payments export. -/
def paymentsDefaultFields : List String :=
  ["payment_date", "id", "debt_id", "user_id", "confirmed", "amount",
   "amount_after_subtraction", "amount_government_duty",
   "amount_representation_expenses", "amount_notary_fees",
   "amount_postage", "amount_accounts_receivable", "amount_main_debt",
   "amount_accrual", "amount_fine", "created_at", "updated_at",
   "deleted_at"]

/-- Constant `maxActionsForExport = 500_000`. -/
def maxActionsForExport : Nat := 500000

/-- Constant `maxPaymentsForExport = 500_000`. -/
def maxPaymentsForExport : Nat := 500000

/-- Embeds `StartDebtsExport`: no pre-flight count check; always creates the job
and launches the task. -/
def startDebtsExport (uuid : String) (selected : List String)
    (filters : List (String × Option String)) (userID : Int)
    (now : DateTime) : SubmitEffects :=
  let sel := if selected = [] then debtsDefaultFields else selected
  let exportID := "exports:" ++ uuid
  let st := mkStatus exportID "debts" userID filters now
  { result := .ok exportID, savedStatuses := [st],
    savedLaravel := [saveLaravelCacheEntry st], task := some sel }

/-- Embeds `StartActionsExport`: pre-flight `HasMoreThan` check against
`maxActionsForExport`; on a repository error or a `true` answer nothing
is created. -/
def startActionsExport (hasMoreThan : Except String Bool) (uuid : String)
    (selected : List String) (filters : List (String × Option String))
    (userID : Int) (now : DateTime) : SubmitEffects :=
  let sel := if selected = [] then actionsDefaultFields else selected
  match hasMoreThan with
  | .error e => { result := .error e, savedStatuses := [],
                  savedLaravel := [], task := none }
  | .ok true =>
      { result := .error ("слишком много действий для экспорта (больше "
          ++ toString maxActionsForExport ++ " записей)"),
        savedStatuses := [], savedLaravel := [], task := none }
  | .ok false =>
      let exportID := "exports:" ++ uuid
      let st := mkStatus exportID "actions" userID filters now
      { result := .ok exportID, savedStatuses := [st],
        savedLaravel := [saveLaravelCacheEntry st], task := some sel }

/-- Embeds `StartPaymentsExport`: pre-flight `HasMoreThan` check against
`maxPaymentsForExport`. -/
def startPaymentsExport (hasMoreThan : Except String Bool) (uuid : String)
    (selected : List String) (filters : List (String × Option String))
    (userID : Int) (now : DateTime) : SubmitEffects :=
  let sel := if selected = [] then paymentsDefaultFields else selected
  match hasMoreThan with
  | .error e => { result := .error e, savedStatuses := [],
                  savedLaravel := [], task := none }
  | .ok true =>
      { result := .error ("слишком много платежей для экспорта (больше "
          ++ toString maxPaymentsForExport ++ " записей)"),
        savedStatuses := [], savedLaravel := [], task := none }
  | .ok false =>
      let exportID := "exports:" ++ uuid
      let st := mkStatus exportID "payments" userID filters now
      { result := .ok exportID, savedStatuses := [st],
        savedLaravel := [paymentsLaravelEntry st], task := some sel }

/-! ### C5: cross-user read returns not-found -/

/-- C5: reading a job status whose stored owner differs from the caller
produces exactly the same result as reading a job ID with no stored
status: the `"export not found"` error.  The two cases are
indistinguishable to the caller and the foreign-owned record is never
disclosed. -/
theorem getExport_foreign_owner_indistinguishable
    (store : String → Option ExportStatus) (now : DateTime)
    (exportID : String) (userID : Int)
    (h : ∀ st, store exportID = some st → st.userID ≠ userID) :
    getExport store now exportID userID =
      getExport (fun _ => none) now exportID userID ∧
    getExport store now exportID userID = .error "export not found" := by
  cases hs : store exportID with
  | none => simp [getExport, hs]
  | some st =>
      have hne := h st hs
      simp [getExport, hs, hne]

/-- Witness for C5: a status owned by user 2, read by user 1. -/
theorem getExport_foreign_owner_indistinguishable_witness :
    getExport
        (fun k => if k = "exports:a" then
          some (mkStatus "exports:a" "debts" 2 [] ⟨2026, 1, 2, 3, 4, 5⟩)
        else none)
        ⟨2026, 1, 2, 3, 5, 5⟩ "exports:a" 1 = .error "export not found" := by
  exact (getExport_foreign_owner_indistinguishable
      (fun k => if k = "exports:a" then
        some (mkStatus "exports:a" "debts" 2 [] ⟨2026, 1, 2, 3, 4, 5⟩)
      else none)
      ⟨2026, 1, 2, 3, 5, 5⟩ "exports:a" 1
      (by intro st hst; simp at hst; subst hst; decide)).2

/-! ### C6: pre-flight count check fails fast, creating nothing -/

/-- C6: when the pre-flight count check of the actions or payments export
reports more than the configured maximum of 500 000 matching rows, the
submission returns the descriptive error and creates nothing: no status
record is written under either cache representation and no background
task is started (so no job ID reaches the caller). -/
theorem submit_count_over_limit_creates_no_job (uuid : String)
    (selected : List String) (filters : List (String × Option String))
    (userID : Int) (now : DateTime) :
    startActionsExport (.ok true) uuid selected filters userID now =
      { result := .error
          "слишком много действий для экспорта (больше 500000 записей)",
        savedStatuses := [], savedLaravel := [], task := none } ∧
    startPaymentsExport (.ok true) uuid selected filters userID now =
      { result := .error
          "слишком много платежей для экспорта (больше 500000 записей)",
        savedStatuses := [], savedLaravel := [], task := none } := by
  constructor <;> rfl

/-! ### C7: unresolvable field selection -/

/-- C7 counterexample: submitting a debts export whose only selected key
resolves against nothing still succeeds synchronously — a job ID is
returned, the initial status is persisted, and the background task is
launched with the unresolvable selection, contradicting the claimed
synchronous "no valid fields" failure. -/
theorem submit_unresolvable_fields_counterexample :
    (startDebtsExport "u1" ["no_such_field"] [] 9
        ⟨2026, 1, 2, 3, 4, 5⟩).result = .ok "exports:u1" ∧
    (startDebtsExport "u1" ["no_such_field"] [] 9
        ⟨2026, 1, 2, 3, 4, 5⟩).savedStatuses ≠ [] ∧
    (startDebtsExport "u1" ["no_such_field"] [] 9
        ⟨2026, 1, 2, 3, 4, 5⟩).task = some ["no_such_field"] := by
  refine ⟨rfl, ?_, rfl⟩
  decide

/-- C7 (amended): a submission whose non-empty field selection resolves
against no registry key does not fail synchronously — it returns a fresh
job ID, persists the initial status, and launches the task; the task then
resolves an empty column set and aborts silently, persisting nothing
further (the job stays at progress 0 with no error recorded). -/
theorem submit_unresolvable_fields_silent (uuid : String)
    (selected : List String) (filters : List (String × Option String))
    (userID : Int) (now : DateTime) (fetch : FetchResult) (tail : S3Tail)
    (hne : selected ≠ [])
    (hnores : ∀ k ∈ selected, k ∉ debtColumnKeys) :
    (startDebtsExport uuid selected filters userID now).result =
      .ok ("exports:" ++ uuid) ∧
    (startDebtsExport uuid selected filters userID now).savedStatuses =
      [mkStatus ("exports:" ++ uuid) "debts" userID filters now] ∧
    (startDebtsExport uuid selected filters userID now).task =
      some selected ∧
    runDebtsExportWrites
      (mkStatus ("exports:" ++ uuid) "debts" userID filters now)
      selected fetch tail = [] := by
  have hres : resolveCols debtColumnKeys selected = [] := by
    unfold resolveCols
    rw [List.filter_eq_nil_iff]
    intro a ha
    simpa using hnores a ha
  refine ⟨rfl, rfl, ?_, ?_⟩
  · simp [startDebtsExport, hne]
  · cases fetch with
    | err => rfl
    | ok n => simp [runDebtsExportWrites, hres]

/-- Witness for C7 (amended) at a concrete unresolvable selection. -/
theorem submit_unresolvable_fields_silent_witness :
    (startDebtsExport "u2" ["bogus"] [] 3 ⟨2026, 1, 2, 3, 4, 5⟩).result =
      .ok "exports:u2" ∧
    runDebtsExportWrites
      (mkStatus "exports:u2" "debts" 3 [] ⟨2026, 1, 2, 3, 4, 5⟩)
      ["bogus"] (.ok 5) (.success "http://u") = [] := by
  have h := submit_unresolvable_fields_silent "u2" ["bogus"] [] 3
    ⟨2026, 1, 2, 3, 4, 5⟩ (.ok 5) (.success "http://u")
    (by decide) (by decide)
  exact ⟨h.1, h.2.2.2⟩

/-! ### C9: shape of the legacy-compatible cache encoding -/

/-- C9: the legacy cache write goes to key `pkb_database_cache` + job ID,
and its value is a serialized map of exactly 7 length-prefixed entries —
key, type, user_id, filters, progress, file_url, created_at — in which
the filters entry is always the empty structure regardless of the actual
filter description, the progress entry is the whole-number rendering
`d:<progress>;`, the file_url entry is the null marker `N;` whenever the
artifact URL is unset or empty, the created_at entry is the creation
timestamp in the fixed `2006-01-02 15:04:05` layout, and the item's error
field is never serialized. -/
theorem legacy_cache_serialization (st : ExportStatus)
    (item : ExportCacheItem) :
    (saveLaravelCacheEntry st).1 = cachePre ++ st.key ∧
    (saveLaravelCacheEntry st).2 = phpSerializeExportItem (toCacheItem st) ∧
    phpSerializeExportItem item =
      "a:7:\x7b" ++
        entriesConcat
          [("key", phpStr item.key), ("type", phpStr item.typ),
           ("user_id", "i:" ++ toString item.userID ++ ";"),
           ("filters", "a:0:\x7b\x7d"),
           ("progress", "d:" ++ toString item.progress ++ ";"),
           ("file_url",
             match item.fileURL with
             | none => "N;"
             | some u => if u = "" then "N;" else phpStr u),
           ("created_at", phpStr item.created)] ++ "\x7d" ∧
    (∀ fl', phpSerializeExportItem (toCacheItem { st with filters := fl' }) =
        phpSerializeExportItem (toCacheItem st)) ∧
    (∀ e', phpSerializeExportItem { item with error := e' } =
        phpSerializeExportItem item) ∧
    (toCacheItem st).created = formatDateTime st.created := by
  refine ⟨rfl, rfl, ?_, fun fl' => rfl, fun e' => rfl, rfl⟩
  simp [phpSerializeExportItem, entriesConcat, String.append_assoc,
    String.append_empty]

/-! ### C8: Hub broadcast handling (websocket server)

The Hub's control loop owns the registry `connections : map[int64]
map[*Connection]bool`.  Its broadcast case performs, for each connection
of the target user, a non-blocking send on the connection's buffered
`send` channel (`select ... default`): the send succeeds exactly when the
buffer has room, otherwise the channel is closed and the connection is
deleted from the registry.  `Hub.Broadcast` itself performs a
non-blocking send on the hub's own buffered `broadcast` channel and drops
the message when that buffer is full. -/

/-- A pushed message (`Message` in the source; payload embedded as an
association list). -/
structure WsMessage where
  userID : Int
  typ : String
  channel : String
  data : List (String × String)
deriving DecidableEq, Repr

/-- One live connection: its identity, the capacity of its buffered
outbound `send` channel, and the messages currently buffered there. -/
structure HubConn where
  connId : Nat
  userID : Int
  sendCap : Nat
  sendQ : List WsMessage
deriving DecidableEq, Repr

/-- A buffered-channel send succeeds without blocking exactly when the
buffer has room. -/
def connHasRoom (c : HubConn) : Bool := c.sendQ.length < c.sendCap

/-- The control loop's broadcast handling over one user's connection set:
connections with room get the message appended to their outbound queue;
connections with a full queue are closed and removed.  Returns (surviving
connections, closed-and-removed connections). -/
def deliverToUser (conns : List HubConn) (msg : WsMessage) :
    List HubConn × List HubConn :=
  (conns.filterMap fun c =>
      if connHasRoom c then some { c with sendQ := c.sendQ ++ [msg] }
      else none,
   conns.filter fun c => ! connHasRoom c)

/-- The broadcast case over the whole registry: only the target user's
entry is touched. -/
def hubHandleBroadcast (registry : List (Int × List HubConn))
    (msg : WsMessage) : List (Int × List HubConn) :=
  registry.map fun e =>
    if e.1 = msg.userID then (e.1, (deliverToUser e.2 msg).1) else e

/-- The Hub's own bounded inbound broadcast queue (capacity 256 in
`NewHub`). -/
structure HubInbound where
  cap : Nat
  queue : List WsMessage
deriving DecidableEq, Repr

/-- Embeds `Hub.Broadcast`: stamp the user ID onto the message and enqueue
non-blockingly; when the inbound queue is full the message is dropped and
the call returns with no error. -/
def hubBroadcast (h : HubInbound) (userID : Int) (msg : WsMessage) :
    HubInbound :=
  let m := { msg with userID := userID }
  if h.queue.length < h.cap then { h with queue := h.queue ++ [m] } else h

theorem deliverToUser_kept (conns : List HubConn) (msg : WsMessage) :
    (deliverToUser conns msg).1 =
      (conns.filter connHasRoom).map
        (fun c => { c with sendQ := c.sendQ ++ [msg] }) := by
  induction conns with
  | nil => rfl
  | cons c cs ih =>
      simp only [deliverToUser, List.filterMap_cons, List.filter_cons] at *
      cases h : connHasRoom c <;> simp [h, ih]

/-- C8: in the control loop's broadcast handling every connection
registered to the target user receives a non-blocking enqueue attempt —
those with room survive with the message appended, those with a full
outbound queue are closed and removed from the registry immediately, and
entries of other users are untouched; and `Broadcast` itself never blocks
the publisher — when the hub's own bounded inbound queue is full the
message is dropped and the state is returned unchanged, with no error. -/
theorem hub_broadcast_contract (conns : List HubConn) (msg : WsMessage)
    (registry : List (Int × List HubConn)) (h : HubInbound) (uid : Int) :
    ((deliverToUser conns msg).1 =
      (conns.filter connHasRoom).map
        (fun c => { c with sendQ := c.sendQ ++ [msg] })) ∧
    ((deliverToUser conns msg).2 =
      conns.filter (fun c => ! connHasRoom c)) ∧
    (∀ c ∈ conns, connHasRoom c = true →
      { c with sendQ := c.sendQ ++ [msg] } ∈ (deliverToUser conns msg).1) ∧
    (∀ c ∈ conns, connHasRoom c = false →
      c ∈ (deliverToUser conns msg).2) ∧
    (∀ e ∈ registry, e.1 ≠ msg.userID → e ∈ hubHandleBroadcast registry msg) ∧
    (h.cap ≤ h.queue.length → hubBroadcast h uid msg = h) := by
  refine ⟨deliverToUser_kept conns msg, rfl, ?_, ?_, ?_, ?_⟩
  · intro c hc hroom
    rw [deliverToUser_kept]
    exact List.mem_map_of_mem _ (List.mem_filter.mpr ⟨hc, hroom⟩)
  · intro c hc hfull
    simp only [deliverToUser]
    exact List.mem_filter.mpr ⟨hc, by simp [hfull]⟩
  · intro e he hne
    simp only [hubHandleBroadcast]
    have : (if e.1 = msg.userID then (e.1, (deliverToUser e.2 msg).1)
        else e) = e := if_neg hne
    exact this ▸ List.mem_map_of_mem _ he
  · intro hfull
    simp only [hubBroadcast]
    rw [if_neg (by omega)]

/-- Witness for C8: one connection with room keeps the message, a
saturated one is removed; a full hub inbound queue drops the broadcast. -/
theorem hub_broadcast_contract_witness :
    (⟨1, 7, 2, [⟨7, "t", "ch", []⟩, ⟨7, "u", "ch", []⟩]⟩ : HubConn) ∈
      (deliverToUser
        [⟨1, 7, 2, [⟨7, "t", "ch", []⟩]⟩, ⟨2, 7, 1, [⟨7, "t", "ch", []⟩]⟩]
        ⟨7, "u", "ch", []⟩).1 ∧
    (⟨2, 7, 1, [⟨7, "t", "ch", []⟩]⟩ : HubConn) ∈
      (deliverToUser
        [⟨1, 7, 2, [⟨7, "t", "ch", []⟩]⟩, ⟨2, 7, 1, [⟨7, "t", "ch", []⟩]⟩]
        ⟨7, "u", "ch", []⟩).2 ∧
    hubBroadcast ⟨1, [⟨9, "full", "ch", []⟩]⟩ 7 ⟨0, "x", "ch", []⟩ =
      ⟨1, [⟨9, "full", "ch", []⟩]⟩ := by
  have h := hub_broadcast_contract
    [⟨1, 7, 2, [⟨7, "t", "ch", []⟩]⟩, ⟨2, 7, 1, [⟨7, "t", "ch", []⟩]⟩]
    ⟨7, "u", "ch", []⟩ [] ⟨1, [⟨9, "full", "ch", []⟩]⟩ 7
  exact ⟨h.2.2.1 ⟨1, 7, 2, [⟨7, "t", "ch", []⟩]⟩ (by decide) (by decide),
    h.2.2.2.1 ⟨2, 7, 1, [⟨7, "t", "ch", []⟩]⟩ (by decide) (by decide),
    h.2.2.2.2.2 (by decide)⟩

/-! ### C10: local storage Save (StorageClient.Save)

`Save` sanitizes the supplied file name with `filepath.Base`, prepends a
16-hex-character random prefix and an underscore, and writes to
`filepath.Join(BaseDir, final)` (via a temp file and rename).  The random
bytes from `crypto/rand` are an explicit parameter. -/

/-- Unix `filepath.Base`: empty path gives `"."`; trailing separators are
stripped; everything up to the last remaining separator is dropped; a
path consisting entirely of separators gives `"/"`. -/
def filepathBase (path : String) : String :=
  if path = "" then "."
  else
    let stripped := (path.data.reverse.dropWhile (fun c => c == '/')).reverse
    if stripped = [] then "/"
    else String.mk ((stripped.reverse.takeWhile (fun c => c != '/')).reverse)

/-- One hexadecimal digit (lowercase), as `encoding/hex` renders it. -/
def hexDigit (n : Nat) : Char :=
  if n < 10 then Char.ofNat ('0'.toNat + n)
  else Char.ofNat ('a'.toNat + (n - 10))

/-- Embeds `hex.EncodeToString`: two lowercase hex digits per byte. -/
def hexEncode : List Nat → String
  | [] => ""
  | b :: bs => String.mk [hexDigit (b / 16), hexDigit (b % 16)] ++ hexEncode bs

/-- The stored name `Save` returns:
`fmt.Sprintf("%s_%s", unique, filepath.Base(fileName))`. -/
def storageSave (randBytes : List Nat) (fileName : String) : String :=
  hexEncode randBytes ++ "_" ++ filepathBase fileName

theorem hexEncode_length (bs : List Nat) :
    (hexEncode bs).length = 2 * bs.length := by
  induction bs with
  | nil => rfl
  | cons b bs ih =>
      show (String.mk [hexDigit (b / 16), hexDigit (b % 16)] ++
        hexEncode bs).length = _
      rw [String.length_append, ih]
      simp [String.length]
      omega

theorem hexDigit_mem (n : Nat) (h : n < 16) :
    hexDigit n ∈ "0123456789abcdef".data := by
  interval_cases n <;> decide

theorem hexEncode_chars (bs : List Nat) (hb : ∀ b ∈ bs, b < 256) :
    ∀ c ∈ (hexEncode bs).data, c ∈ "0123456789abcdef".data := by
  induction bs with
  | nil => intro c hc; simp [hexEncode] at hc
  | cons b bs ih =>
      intro c hc
      have hb0 : b < 256 := hb b (by simp)
      rw [show hexEncode (b :: bs) =
        String.mk [hexDigit (b / 16), hexDigit (b % 16)] ++ hexEncode bs
        from rfl, String.data_append] at hc
      rcases List.mem_append.mp hc with hc | hc
      · have hcc : c = hexDigit (b / 16) ∨ c = hexDigit (b % 16) := by
          simpa using hc
        rcases hcc with rfl | rfl
        · exact hexDigit_mem _ (by omega)
        · exact hexDigit_mem _ (Nat.mod_lt _ (by omega))
      · exact ih (fun x hx => hb x (by simp [hx])) c hc

theorem filepathBase_all_sep (fileName : String) (h1 : fileName ≠ "")
    (h2 : ∀ c ∈ fileName.data, c = '/') : filepathBase fileName = "/" := by
  unfold filepathBase
  rw [if_neg h1]
  have hd : fileName.data.reverse.dropWhile (fun c => c == '/') = [] := by
    rw [List.dropWhile_eq_nil_iff]
    intro x hx
    simp [h2 x (List.mem_reverse.mp hx)]
  simp [hd]

theorem filepathBase_no_sep (fileName : String)
    (h : ¬ (fileName ≠ "" ∧ ∀ c ∈ fileName.data, c = '/')) :
    ∀ c ∈ (filepathBase fileName).data, c ≠ '/' := by
  by_cases he : fileName = ""
  · subst he
    intro c hc
    simp [filepathBase] at hc
    simp [hc]
  · have hex : ∃ c ∈ fileName.data, c ≠ '/' := by
      by_contra hno
      push_neg at hno
      exact h ⟨he, hno⟩
    unfold filepathBase
    rw [if_neg he]
    have hstr : fileName.data.reverse.dropWhile (fun c => c == '/') ≠ [] := by
      intro hnil
      obtain ⟨c, hc, hcne⟩ := hex
      have := List.dropWhile_eq_nil_iff.mp hnil c (List.mem_reverse.mpr hc)
      simp at this
      exact hcne this
    rw [if_neg (by simpa using hstr)]
    intro c hc
    have hc' : c ∈ (fileName.data.reverse.dropWhile
        (fun c => c == '/')).reverse.reverse.takeWhile (fun c => c != '/') := by
      simpa using hc
    have := List.mem_takeWhile_imp hc'
    simpa using this

/-- C10 counterexample: for the input name `"/"` (a name consisting
entirely of path separators) `filepath.Base` returns `"/"`, so the stored
name `Save` returns does contain a path separator, contrary to the
claim.  (The written path still stays inside the base directory: the
joined path cleans to the separator-free component.) -/
theorem storageSave_sep_counterexample :
    storageSave [0, 0, 0, 0, 0, 0, 0, 0] "/" = "0000000000000000_/" ∧
    '/' ∈ (storageSave [0, 0, 0, 0, 0, 0, 0, 0] "/").data := by
  constructor <;> decide

/-- C10 (amended): `Save` returns `hex(randBytes) + "_" +
filepath.Base(fileName)`, whose random prefix is 16 lowercase hexadecimal
characters; for every input name except names consisting entirely of path
separators the returned name contains no separator at all, and for
all-separator names it is exactly the hex prefix, an underscore and a
single trailing separator; in every case the name is at least 17
characters long, so none of its separator-free components can be `"."`,
`".."` or empty and the written path `filepath.Join(BaseDir, name)` never
escapes the base directory. -/
theorem storageSave_contract (randBytes : List Nat) (fileName : String)
    (hlen : randBytes.length = 8)
    (hbytes : ∀ b ∈ randBytes, b < 256) :
    (storageSave randBytes fileName =
      hexEncode randBytes ++ "_" ++ filepathBase fileName) ∧
    ((hexEncode randBytes).length = 16) ∧
    (∀ c ∈ (hexEncode randBytes).data, c ∈ "0123456789abcdef".data) ∧
    ((fileName ≠ "" ∧ ∀ c ∈ fileName.data, c = '/') →
      storageSave randBytes fileName = hexEncode randBytes ++ "_/") ∧
    (¬ (fileName ≠ "" ∧ ∀ c ∈ fileName.data, c = '/') →
      ∀ c ∈ (storageSave randBytes fileName).data, c ≠ '/') ∧
    (17 ≤ (storageSave randBytes fileName).length) := by
  refine ⟨rfl, by rw [hexEncode_length, hlen], hexEncode_chars _ hbytes,
    ?_, ?_, ?_⟩
  · rintro ⟨h1, h2⟩
    unfold storageSave
    rw [filepathBase_all_sep fileName h1 h2, String.append_assoc]
    rfl
  · intro hno c hc
    unfold storageSave at hc
    rw [String.data_append, String.data_append] at hc
    rcases List.mem_append.mp hc with hc | hc
    · rcases List.mem_append.mp hc with hc | hc
      · have hmem := hexEncode_chars _ hbytes c hc
        intro hEq
        subst hEq
        exact absurd hmem (by decide)
      · have h_ : c = '_' := by simpa using hc
        subst h_
        decide
    · exact filepathBase_no_sep fileName hno c hc
  · unfold storageSave
    rw [String.length_append, String.length_append, hexEncode_length, hlen]
    have : ("_").length = 1 := rfl
    omega

/-- Witness for C10 (amended) on a traversal-style input. -/
theorem storageSave_contract_witness :
    storageSave [1, 2, 3, 4, 5, 6, 7, 8] "../../etc/passwd" =
      hexEncode [1, 2, 3, 4, 5, 6, 7, 8] ++ "_" ++
        filepathBase "../../etc/passwd" ∧
    (∀ c ∈ (storageSave [1, 2, 3, 4, 5, 6, 7, 8] "../../etc/passwd").data,
      c ≠ '/') ∧
    17 ≤ (storageSave [1, 2, 3, 4, 5, 6, 7, 8] "../../etc/passwd").length := by
  have h := storageSave_contract [1, 2, 3, 4, 5, 6, 7, 8] "../../etc/passwd"
    (by decide) (by decide)
  exact ⟨h.1, h.2.2.2.2.1 (by decide), h.2.2.2.2.2⟩

end DebtsterExport
